import Mathlib

/-!
Verification of the DSL ⇄ ComfyUI-JSON converter of `comfy_mcp`
(`src/comfy_mcp/dsl/converter.py` and `src/comfy_mcp/dsl/ast_nodes.py`),
as a shallow embedding in Lean 4.

Python dictionaries are modelled as insertion-ordered association lists
(`pyInsert` updates an existing key in place, otherwise appends, exactly like
CPython's `dict.__setitem__`; `pyLookup` is `dict.get`).  Python exceptions
are modelled by the `Except PyErr` monad.  Python's `str(int)` is
`Nat.repr` / the `Int` decimal rendering.
-/

namespace ComfyMcp

/-! ### Python dict model -/

/-- `d[k] = v` on a CPython dict: replace the value of an existing key in
place, otherwise append the new binding at the end. -/
def pyInsert [DecidableEq α] (d : List (α × β)) (k : α) (v : β) : List (α × β) :=
  match d with
  | [] => [(k, v)]
  | (k', v') :: rest => if k' = k then (k, v) :: rest else (k', v') :: pyInsert rest k v

/-- `d.get(k)` on a CPython dict. -/
def pyLookup [DecidableEq α] (d : List (α × β)) (k : α) : Option β :=
  match d with
  | [] => none
  | (k', v) :: rest => if k' = k then some v else pyLookup rest k

theorem pyLookup_pyInsert_self [DecidableEq α] (d : List (α × β)) (k : α) (v : β) :
    pyLookup (pyInsert d k v) k = some v := by
  induction d with
  | nil => simp [pyInsert, pyLookup]
  | cons hd tl ih =>
    obtain ⟨k', v'⟩ := hd
    by_cases h : k' = k
    · simp [pyInsert, pyLookup, h]
    · simp [pyInsert, pyLookup, h, ih]

theorem pyLookup_pyInsert_ne [DecidableEq α] (d : List (α × β)) (k k' : α) (v : β)
    (h : k' ≠ k) : pyLookup (pyInsert d k v) k' = pyLookup d k' := by
  have h' : ¬(k = k') := fun hh => h hh.symm
  induction d with
  | nil => simp [pyInsert, pyLookup, h']
  | cons hd tl ih =>
    obtain ⟨k0, v0⟩ := hd
    by_cases h0 : k0 = k
    · subst h0
      simp [pyInsert, pyLookup, h']
    · simp only [pyInsert, h0, if_false, pyLookup]
      by_cases h1 : k0 = k'
      · simp [h1]
      · simp [h1, ih]

theorem pyInsert_eq_append [DecidableEq α] (d : List (α × β)) (k : α) (v : β)
    (h : pyLookup d k = none) : pyInsert d k v = d ++ [(k, v)] := by
  induction d with
  | nil => simp [pyInsert]
  | cons hd tl ih =>
    obtain ⟨k0, v0⟩ := hd
    by_cases h0 : k0 = k
    · simp [pyLookup, h0] at h
    · simp only [pyLookup, h0, if_false] at h
      simp [pyInsert, h0, ih h]

theorem pyLookup_append [DecidableEq α] (d d' : List (α × β)) (k : α)
    (h : pyLookup d k = none) : pyLookup (d ++ d') k = pyLookup d' k := by
  induction d with
  | nil => simp
  | cons hd tl ih =>
    obtain ⟨k0, v0⟩ := hd
    by_cases h0 : k0 = k
    · simp [pyLookup, h0] at h
    · simp only [pyLookup, h0, if_false] at h
      simp only [List.cons_append, pyLookup, h0, if_false]
      exact ih h

theorem pyLookup_isSome_of_mem_keys [DecidableEq α] (d : List (α × β)) (k : α)
    (h : k ∈ d.map Prod.fst) : (pyLookup d k).isSome := by
  induction d with
  | nil => simp at h
  | cons hd tl ih =>
    obtain ⟨k0, v0⟩ := hd
    by_cases h0 : k0 = k
    · simp [pyLookup, h0]
    · have hmem : k ∈ tl.map Prod.fst := by
        simp only [List.map_cons, List.mem_cons] at h
        rcases h with h | h
        · exact absurd h.symm h0
        · exact h
      simp [pyLookup, h0, ih hmem]

theorem pyLookup_eq_none_of_not_mem_keys [DecidableEq α] (d : List (α × β)) (k : α)
    (h : k ∉ d.map Prod.fst) : pyLookup d k = none := by
  induction d with
  | nil => simp [pyLookup]
  | cons hd tl ih =>
    obtain ⟨k0, v0⟩ := hd
    simp only [List.map_cons, List.mem_cons] at h
    push_neg at h
    have h0 : ¬(k0 = k) := fun hh => h.1 hh.symm
    simp [pyLookup, h0, ih h.2]

theorem mem_keys_of_pyLookup_isSome [DecidableEq α] (d : List (α × β)) (k : α)
    (h : (pyLookup d k).isSome) : k ∈ d.map Prod.fst := by
  by_contra hc
  rw [pyLookup_eq_none_of_not_mem_keys d k hc] at h
  simp at h

theorem length_pyInsert_le [DecidableEq α] (d : List (α × β)) (k : α) (v : β) :
    (pyInsert d k v).length ≤ d.length + 1 := by
  induction d with
  | nil => simp [pyInsert]
  | cons hd tl ih =>
    obtain ⟨k0, v0⟩ := hd
    by_cases h0 : k0 = k
    · simp [pyInsert, h0]
    · simp only [pyInsert, h0, if_false, List.length_cons]
      omega

theorem length_pyInsert_of_mem [DecidableEq α] (d : List (α × β)) (k : α) (v : β)
    (h : k ∈ d.map Prod.fst) : (pyInsert d k v).length = d.length := by
  induction d with
  | nil => simp at h
  | cons hd tl ih =>
    obtain ⟨k0, v0⟩ := hd
    by_cases h0 : k0 = k
    · simp [pyInsert, h0]
    · have hmem : k ∈ tl.map Prod.fst := by
        simp only [List.map_cons, List.mem_cons] at h
        rcases h with h | h
        · exact absurd h.symm h0
        · exact h
      simp [pyInsert, h0, ih hmem]

theorem mem_keys_pyInsert_self [DecidableEq α] (d : List (α × β)) (k : α) (v : β) :
    k ∈ (pyInsert d k v).map Prod.fst := by
  induction d with
  | nil => simp [pyInsert]
  | cons hd tl ih =>
    obtain ⟨k0, v0⟩ := hd
    by_cases h0 : k0 = k
    · simp [pyInsert, h0]
    · simp only [pyInsert, h0, if_false, List.map_cons, List.mem_cons]
      exact Or.inr ih

theorem mem_keys_pyInsert_of_mem [DecidableEq α] (d : List (α × β)) (k k' : α) (v : β)
    (h : k' ∈ d.map Prod.fst) : k' ∈ (pyInsert d k v).map Prod.fst := by
  induction d with
  | nil => simp at h
  | cons hd tl ih =>
    obtain ⟨k0, v0⟩ := hd
    simp only [List.map_cons, List.mem_cons] at h
    by_cases h0 : k0 = k
    · rcases h with h | h
      · subst h0; subst h
        exact mem_keys_pyInsert_self _ _ _
      · simp only [pyInsert, h0, if_true, List.map_cons, List.mem_cons]
        exact Or.inr h
    · rcases h with h | h
      · simp [pyInsert, h0, h]
      · simp only [pyInsert, h0, if_false, List.map_cons, List.mem_cons]
        exact Or.inr (ih h)

theorem not_mem_keys_pyInsert [DecidableEq α] (d : List (α × β)) (k k' : α) (v : β)
    (h : k' ∉ d.map Prod.fst) (hne : k' ≠ k) : k' ∉ (pyInsert d k v).map Prod.fst := by
  induction d with
  | nil => simp [pyInsert, hne]
  | cons hd tl ih =>
    obtain ⟨k0, v0⟩ := hd
    simp only [List.map_cons, List.mem_cons] at h
    push_neg at h
    by_cases h0 : k0 = k
    · simp only [pyInsert, h0, if_true, List.map_cons, List.mem_cons]
      push_neg
      exact ⟨hne, h.2⟩
    · simp only [pyInsert, h0, if_false, List.map_cons, List.mem_cons]
      push_neg
      exact ⟨h.1, ih h.2⟩

theorem mem_values_pyInsert [DecidableEq α] (d : List (α × β)) (k : α) (v x : β)
    (h : x ∈ (pyInsert d k v).map Prod.snd) : x ∈ d.map Prod.snd ∨ x = v := by
  induction d with
  | nil => simpa [pyInsert] using h
  | cons hd tl ih =>
    obtain ⟨k0, v0⟩ := hd
    by_cases h0 : k0 = k
    · simp only [pyInsert, h0, if_true, List.map_cons, List.mem_cons] at h
      rcases h with h | h
      · exact Or.inr h
      · exact Or.inl (by simp [h])
    · simp only [pyInsert, h0, if_false, List.map_cons, List.mem_cons] at h
      rcases h with h | h
      · exact Or.inl (by simp [h])
      · rcases ih h with hh | hh
        · exact Or.inl (by simp at hh ⊢; exact Or.inr hh)
        · exact Or.inr hh

/-! ### Injectivity of the decimal rendering `Nat.repr` -/

/-- Structural model of the decimal digit list produced by `Nat.toDigitsCore`. -/
def decDigits (n : Nat) : List Char :=
  if h : n / 10 = 0 then [Nat.digitChar (n % 10)]
  else decDigits (n / 10) ++ [Nat.digitChar (n % 10)]
termination_by n
decreasing_by
  have hn : n ≠ 0 := by
    intro h0
    subst h0
    simp at h
  exact Nat.div_lt_self (Nat.pos_of_ne_zero hn) (by omega)

theorem decDigits_low (n : Nat) (h : n / 10 = 0) :
    decDigits n = [Nat.digitChar (n % 10)] := by
  rw [decDigits, dif_pos h]

theorem decDigits_high (n : Nat) (h : ¬(n / 10 = 0)) :
    decDigits n = decDigits (n / 10) ++ [Nat.digitChar (n % 10)] := by
  rw [decDigits, dif_neg h]

theorem toDigitsCore_eq_decDigits :
    ∀ (fuel n : Nat) (ds : List Char), n < fuel →
      Nat.toDigitsCore 10 fuel n ds = decDigits n ++ ds := by
  intro fuel
  induction fuel with
  | zero => intro n ds h; exact absurd h (Nat.not_lt_zero n)
  | succ f ih =>
    intro n ds h
    by_cases h0 : n / 10 = 0
    · simp only [Nat.toDigitsCore, h0, if_true]
      rw [decDigits_low n h0]
      simp
    · simp only [Nat.toDigitsCore, h0, if_false]
      have hdiv : n / 10 < f := by omega
      rw [ih (n / 10) (Nat.digitChar (n % 10) :: ds) hdiv]
      rw [decDigits_high n h0, List.append_assoc]
      simp

theorem digitChar_inj_lt :
    ∀ a, a < 10 → ∀ b, b < 10 → Nat.digitChar a = Nat.digitChar b → a = b := by decide

theorem decDigits_ne_nil (n : Nat) : decDigits n ≠ [] := by
  by_cases h : n / 10 = 0
  · rw [decDigits_low n h]; simp
  · rw [decDigits_high n h]; simp

theorem decDigits_inj : ∀ m n : Nat, decDigits m = decDigits n → m = n := by
  intro m
  induction m using Nat.strong_induction_on with
  | _ m ih =>
    intro n he
    by_cases hm : m / 10 = 0 <;> by_cases hn : n / 10 = 0
    · rw [decDigits_low m hm, decDigits_low n hn] at he
      simp at he
      have := digitChar_inj_lt (m % 10) (by omega) (n % 10) (by omega) he
      omega
    · rw [decDigits_low m hm, decDigits_high n hn] at he
      have hlen := congrArg List.length he
      simp only [List.length_append, List.length_cons, List.length_nil] at hlen
      exact absurd (List.eq_nil_of_length_eq_zero (by omega)) (decDigits_ne_nil (n / 10))
    · rw [decDigits_high m hm, decDigits_low n hn] at he
      have hlen := congrArg List.length he
      simp only [List.length_append, List.length_cons, List.length_nil] at hlen
      exact absurd (List.eq_nil_of_length_eq_zero (by omega)) (decDigits_ne_nil (m / 10))
    · rw [decDigits_high m hm, decDigits_high n hn] at he
      have hsplit := List.append_inj' he (by simp)
      have h1 : m / 10 = n / 10 := by
        have hmlt : m / 10 < m := Nat.div_lt_self (by omega) (by omega)
        exact ih (m / 10) hmlt (n / 10) hsplit.1
      have h2 : m % 10 = n % 10 := by
        have hc := hsplit.2
        simp at hc
        exact digitChar_inj_lt (m % 10) (by omega) (n % 10) (by omega) hc
      omega

theorem natRepr_eq_decDigits (n : Nat) : Nat.repr n = (decDigits n).asString := by
  show (Nat.toDigits 10 n).asString = (decDigits n).asString
  rw [Nat.toDigits, toDigitsCore_eq_decDigits (n + 1) n [] (Nat.lt_succ_self n),
    List.append_nil]

theorem natRepr_inj {m n : Nat} (h : Nat.repr m = Nat.repr n) : m = n := by
  rw [natRepr_eq_decDigits, natRepr_eq_decDigits] at h
  exact decDigits_inj m n (congrArg String.data h)

/-! ### AST model (`ast_nodes.py`) -/

/-- `Connection`: reference to another node's output, rendered `@node.output`. -/
structure Connection where
  node : String
  output : String
deriving DecidableEq

/-- The value union of `Property.value`: `Connection | int | float | bool | str`. -/
inductive PropValue where
  | conn (c : Connection)
  | int (i : Int)
  | float (f : Float)
  | bool (b : Bool)
  | str (s : String)

/-- `Property`: a named node parameter. -/
structure Property where
  name : String
  value : PropValue

/-- `Node`: a workflow node with a symbolic name, a type and ordered properties. -/
structure Node where
  name : String
  node_type : String
  properties : List Property

/-- `Section`: a header plus the nodes listed under it. -/
structure Section where
  header : String
  nodes : List Node

/-- `Workflow`: ordered list of sections. -/
structure Workflow where
  sections : List Section

/-- All nodes of a workflow in section-then-node encounter order (the
iteration order of both passes of `DslToJsonConverter.convert`). -/
def allNodes (w : Workflow) : List Node :=
  (w.sections.map Section.nodes).flatten

/-- The node names of a workflow in encounter order (`Workflow.list_nodes`). -/
def nodeNamesOf (w : Workflow) : List String :=
  (allNodes w).map Node.name

/-! ### Graph (ComfyUI JSON) model -/

/-- Python runtime values appearing in a graph node's `inputs` dict. -/
inductive JVal where
  | int (i : Int)
  | float (f : Float)
  | bool (b : Bool)
  | str (s : String)
  | arr (xs : List JVal)

/-- Python `repr` of a `JVal` (lists render their elements with `repr`).
`Float` rendering delegates to `Float.toString`; no claim in this
development evaluates it. -/
def pyRepr : JVal → String
  | .int i => toString i
  | .float f => toString f
  | .bool b => if b then "True" else "False"
  | .str s => "\x27" ++ s ++ "\x27"
  | .arr xs => "[" ++ String.intercalate ", " (xs.attach.map fun x => pyRepr x.1) ++ "]"
termination_by v => sizeOf v
decreasing_by
  have h := List.sizeOf_lt_of_mem x.2
  simp only [JVal.arr.sizeOf_spec]
  omega

/-- Python `str` of a `JVal`. -/
def pyStr : JVal → String
  | .str s => s
  | v => pyRepr v

/-- One record of the simplified graph format:
`{"class_type": ..., "inputs": {...}}`. -/
structure GraphNode where
  class_type : String
  inputs : List (String × JVal)

/-- The simplified graph format: an (insertion-ordered) dict from string node
ids to graph node records. -/
abbrev Graph := List (String × GraphNode)

/-- Python exceptions that the embedded converter code can raise. -/
inductive PyErr where
  | keyError (key : String)
  | nameError (name : String)
  | indexError
  | typeError
deriving DecidableEq

/-- `d[k]` on a Python dict with string keys: raises `KeyError(k)` on a miss. -/
def getItem (d : List (String × β)) (k : String) : Except PyErr β :=
  match pyLookup d k with
  | some v => .ok v
  | none => .error (.keyError k)

/-! ### `DslToJsonConverter` (`converter.py` lines 24–90) -/

/-- `DEFAULT_OUTPUT_MAPPINGS`: node_type → output_name → output_index. -/
def DEFAULT_OUTPUT_MAPPINGS : List (String × List (String × Int)) :=
  [("CheckpointLoaderSimple", [("model", 0), ("clip", 1), ("vae", 2)]),
   ("CheckpointLoader", [("model", 0), ("clip", 1), ("vae", 2)]),
   ("CLIPTextEncode", [("conditioning", 0)]),
   ("EmptyLatentImage", [("latent", 0)]),
   ("KSampler", [("latent", 0)]),
   ("VAEDecode", [("image", 0)]),
   ("VAEEncode", [("latent", 0)]),
   ("LoadImage", [("image", 0), ("mask", 1)]),
   ("SaveImage", [])]

/-- The converter object: `output_mappings` is set in `__init__`; the
remaining fields are the instance state that `convert` resets on entry. -/
structure DslToJsonConverter where
  output_mappings : List (String × List (String × Int))
  node_id_map : List (String × String) := []
  node_type_map : List (String × String) := []
  next_id : Nat := 1

/-- Pass 1 of `convert`: walk the nodes in encounter order, assigning
`str(next_id)` ids and recording node types (`node_id_map`, `node_type_map`).
Later duplicates of a name overwrite earlier entries, as in a Python dict. -/
def assignIds : List Node → Nat → List (String × String) × List (String × String) →
    List (String × String) × List (String × String)
  | [], _, maps => maps
  | n :: rest, k, (idMap, typeMap) =>
      assignIds rest (k + 1)
        (pyInsert idMap n.name (Nat.repr k), pyInsert typeMap n.name n.node_type)

/-- `DslToJsonConverter._get_output_index`. -/
def getOutputIndex (typeMap : List (String × String))
    (mappings : List (String × List (String × Int)))
    (node_name output_name : String) : Int :=
  match pyLookup typeMap node_name with
  | some node_type =>
      match pyLookup mappings node_type with
      | some m => (pyLookup m output_name).getD 0
      | none => 0
  | none => 0

/-- `DslToJsonConverter._convert_value`: a `Connection` resolves to
`[node_id, output_index]` (raising `KeyError` for an unknown node name);
booleans and numbers pass through; everything else is stringified. -/
def convertValue (idMap typeMap : List (String × String))
    (mappings : List (String × List (String × Int))) : PropValue → Except PyErr JVal
  | .conn c =>
      match getItem idMap c.node with
      | .error e => .error e
      | .ok node_id =>
          .ok (.arr [.str node_id, .int (getOutputIndex typeMap mappings c.node c.output)])
  | .bool b => .ok (.bool b)
  | .int i => .ok (.int i)
  | .float f => .ok (.float f)
  | .str s => .ok (.str s)

/-- The `inputs` loop of `DslToJsonConverter._convert_node`. -/
def convertNodeInputs (idMap typeMap : List (String × String))
    (mappings : List (String × List (String × Int))) :
    List Property → List (String × JVal) → Except PyErr (List (String × JVal))
  | [], acc => .ok acc
  | p :: rest, acc =>
      match convertValue idMap typeMap mappings p.value with
      | .error e => .error e
      | .ok v => convertNodeInputs idMap typeMap mappings rest (pyInsert acc p.name v)

/-- `DslToJsonConverter._convert_node`. -/
def convertNode (idMap typeMap : List (String × String))
    (mappings : List (String × List (String × Int))) (n : Node) :
    Except PyErr GraphNode :=
  match convertNodeInputs idMap typeMap mappings n.properties [] with
  | .error e => .error e
  | .ok inputs => .ok { class_type := n.node_type, inputs := inputs }

/-- Pass 2 of `convert`: emit each node's record under its assigned id. -/
def emitNodes (idMap typeMap : List (String × String))
    (mappings : List (String × List (String × Int))) :
    List Node → Graph → Except PyErr Graph
  | [], acc => .ok acc
  | n :: rest, acc =>
      match getItem idMap n.name with
      | .error e => .error e
      | .ok node_id =>
          match convertNode idMap typeMap mappings n with
          | .error e => .error e
          | .ok record => emitNodes idMap typeMap mappings rest (pyInsert acc node_id record)

/-- `DslToJsonConverter.convert` with the instance state already reset
(the method begins by clearing `node_id_map`, `node_type_map`, `next_id`). -/
def convertCore (mappings : List (String × List (String × Int))) (w : Workflow) :
    Except PyErr Graph :=
  let maps := assignIds (allNodes w) 1 ([], [])
  emitNodes maps.1 maps.2 mappings (allNodes w) []

/-- `DslToJsonConverter.convert`: resets the instance state, then runs the
two passes; hence the result depends only on `output_mappings`. -/
def DslToJsonConverter.convert (c : DslToJsonConverter) (w : Workflow) :
    Except PyErr Graph :=
  convertCore c.output_mappings w

/-! ### `JsonToDslConverter` (`converter.py` lines 93–221) -/

/-- The reverse mapping node_type → output_index → output_name built in
`JsonToDslConverter.__init__` by dict comprehension over each sub-mapping. -/
def reverseMappings (mappings : List (String × List (String × Int))) :
    List (String × List (Int × String)) :=
  mappings.map fun tm => (tm.1, tm.2.foldl (fun acc p => pyInsert acc p.2 p.1) [])

/-- The inline `mappings` table of `JsonToDslConverter._type_to_name`. -/
def TYPE_NAME_MAPPINGS : List (String × String) :=
  [("CheckpointLoaderSimple", "checkpoint"),
   ("CheckpointLoader", "checkpoint"),
   ("CLIPTextEncode", "text_encode"),
   ("EmptyLatentImage", "empty_latent"),
   ("KSampler", "sampler"),
   ("VAEDecode", "decode"),
   ("VAEEncode", "encode"),
   ("LoadImage", "load_image"),
   ("SaveImage", "save")]

/-- `JsonToDslConverter._type_to_name` (fallback: lowercase the type). -/
def typeToName (node_type : String) : String :=
  (pyLookup TYPE_NAME_MAPPINGS node_type).getD node_type.toLower

/-- Whether `pat` occurs as a substring of the character list `s`
(Python's `pat in s` on strings). -/
def charsStartWith : List Char → List Char → Bool
  | [], _ => true
  | _ :: _, [] => false
  | c :: cs, d :: ds => c == d && charsStartWith cs ds

def charsContain (pat : List Char) : List Char → Bool
  | [] => charsStartWith pat []
  | d :: ds => charsStartWith pat (d :: ds) || charsContain pat ds

/-- Python `pat in s` for strings. -/
def strIn (pat s : String) : Bool := charsContain pat.data s.data

/-- `JsonToDslConverter._infer_section_name`: ordered substring tests. -/
def inferSectionName (node_type : String) : String :=
  if strIn "Checkpoint" node_type || strIn "Loader" node_type then "Model Loading"
  else if strIn "CLIP" node_type || strIn "TextEncode" node_type then "Text Conditioning"
  else if strIn "Latent" node_type then "Latent"
  else if strIn "Sampler" node_type || strIn "KSampler" node_type then "Sampling"
  else if strIn "VAE" node_type || strIn "Save" node_type then "Output"
  else "Processing"

/-- The loop body state of `JsonToDslConverter._generate_node_names`:
`names` and `type_counts` dicts. -/
def generateNodeNamesAux : List (String × GraphNode) → List (String × String) →
    List (String × Nat) → List (String × String)
  | [], names, _ => names
  | (nid, nd) :: rest, names, counts =>
      let base := typeToName nd.class_type
      match pyLookup counts base with
      | none =>
          generateNodeNamesAux rest (pyInsert names nid base) (pyInsert counts base 0)
      | some c =>
          generateNodeNamesAux rest
            (pyInsert names nid (base ++ "_" ++ Nat.repr (c + 1)))
            (pyInsert counts base (c + 1))

/-- `JsonToDslConverter._generate_node_names`. -/
def generateNodeNames (g : Graph) : List (String × String) :=
  generateNodeNamesAux g [] []

/-- `JsonToDslConverter._get_output_name`: reverse-lookup the slot index,
falling back to `output_<index>`.  A Python dict `get` with a key that is
numerically equal to an `int` key (`True`, `1.0`) would also hit; no claim
involves non-integer slot values, so only `int` keys are looked up here. -/
def getOutputName (revMappings : List (String × List (Int × String)))
    (node_type : String) (output_index : JVal) : String :=
  match pyLookup revMappings node_type with
  | some m =>
      match output_index with
      | .int i => (pyLookup m i).getD ("output_" ++ pyStr output_index)
      | _ => "output_" ++ pyStr output_index
  | none => "output_" ++ pyStr output_index

/-- `JsonToDslConverter._convert_value`: a 2-element list is a connection
(`str(value[0])` is the target id, looked up in `node_names` then in the
graph); booleans and numbers pass through; everything else is stringified. -/
def jsonConvertValue (revMappings : List (String × List (Int × String)))
    (node_names : List (String × String)) (json_data : Graph) :
    JVal → Except PyErr PropValue
  | .arr [v0, v1] =>
      match getItem node_names (pyStr v0) with
      | .error e => .error e
      | .ok target_node_name =>
          match getItem json_data (pyStr v0) with
          | .error e => .error e
          | .ok target_node =>
              .ok (.conn ⟨target_node_name,
                getOutputName revMappings target_node.class_type v1⟩)
  | .bool b => .ok (.bool b)
  | .int i => .ok (.int i)
  | .float f => .ok (.float f)
  | v => .ok (.str (pyStr v))

/-- The property loop of `JsonToDslConverter.convert` (builds the ordered
`properties` list of one node). -/
def convertProps (revMappings : List (String × List (Int × String)))
    (node_names : List (String × String)) (json_data : Graph) :
    List (String × JVal) → Except PyErr (List Property)
  | [] => .ok []
  | (pn, pv) :: rest =>
      match jsonConvertValue revMappings node_names json_data pv with
      | .error e => .error e
      | .ok cv =>
          match convertProps revMappings node_names json_data rest with
          | .error e => .error e
          | .ok more => .ok (⟨pn, cv⟩ :: more)

/-- `sections_dict[section_name].append(node)` with defaulting, as in
`JsonToDslConverter.convert`. -/
def dictAppend (d : List (String × List Node)) (k : String) (v : Node) :
    List (String × List Node) :=
  match d with
  | [] => [(k, [v])]
  | (k', vs) :: rest =>
      if k' = k then (k', vs ++ [v]) :: rest else (k', vs) :: dictAppend rest k v

/-- The main loop of `JsonToDslConverter.convert`: one AST node per graph
record, grouped into `sections_dict` by inferred section name. -/
def groupEntries (revMappings : List (String × List (Int × String)))
    (node_names : List (String × String)) (json_data : Graph) :
    List (String × GraphNode) → List (String × List Node) →
    Except PyErr (List (String × List Node))
  | [], acc => .ok acc
  | (nid, nd) :: rest, acc =>
      match getItem node_names nid with
      | .error e => .error e
      | .ok node_name =>
          match convertProps revMappings node_names json_data nd.inputs with
          | .error e => .error e
          | .ok props =>
              groupEntries revMappings node_names json_data rest
                (dictAppend acc (inferSectionName nd.class_type)
                  ⟨node_name, nd.class_type, props⟩)

/-- The converter object; `reverse_mappings` is derived from
`output_mappings` in `__init__` (see `reverseMappings`). -/
structure JsonToDslConverter where
  output_mappings : List (String × List (String × Int))

/-- `JsonToDslConverter.convert`. -/
def JsonToDslConverter.convert (c : JsonToDslConverter) (g : Graph) :
    Except PyErr Workflow :=
  match groupEntries (reverseMappings c.output_mappings) (generateNodeNames g) g g [] with
  | .error e => .error e
  | .ok sections_dict => .ok ⟨sections_dict.map fun p => ⟨p.1, p.2⟩⟩

/-! ### Format detector / normalizer (the second, effective definitions,
`converter.py` lines 328–387) -/

/-- Generic parsed-JSON blobs, for the format detector and normalizer. -/
inductive Json where
  | int (i : Int)
  | float (f : Float)
  | bool (b : Bool)
  | str (s : String)
  | arr (xs : List Json)
  | obj (fields : List (String × Json))

/-- The effective `is_full_workflow_format` (the later of the two
definitions in `converter.py`; it shadows the earlier one). -/
def is_full_workflow_format (data : Json) : Bool :=
  match data with
  | .obj fields =>
      (match pyLookup fields "workflow" with
       | some (.obj _) => true
       | _ => false)
      || (pyLookup fields "nodes").isSome || (pyLookup fields "links").isSome
  | _ => false

/-- The `link_map` construction loop of the effective
`full_workflow_to_simplified`: each link record is subscripted at indices
0–4, raising `IndexError` when too short.  The table itself is passed only
to the undefined global `convert_nodes_format_to_simplified`, so only the
exceptions of its construction are observable and modelled. -/
def buildLinkMap : List Json → Except PyErr Unit
  | [] => .ok ()
  | l :: rest =>
      match l with
      | .arr xs => if 5 ≤ xs.length then buildLinkMap rest else .error .indexError
      | _ => .error .typeError

/-- The effective `full_workflow_to_simplified` (the later of the two
definitions in `converter.py`).  On a blob with a top-level `workflow` key
it returns that value; on a blob with top-level `nodes` it builds the link
table and then calls `convert_nodes_format_to_simplified`, a global that is
defined nowhere, so Python raises `NameError` at that call. -/
def full_workflow_to_simplified (full_data : Json) : Except PyErr Json :=
  if !is_full_workflow_format full_data then .ok full_data
  else
    match full_data with
    | .obj fields =>
        match pyLookup fields "workflow" with
        | some v => .ok v
        | none =>
            match pyLookup fields "nodes" with
            | some _ =>
                (match (pyLookup fields "links").getD (.arr []) with
                 | .arr links =>
                     (match buildLinkMap links with
                      | .error e => .error e
                      | .ok _ => .error (.nameError "convert_nodes_format_to_simplified"))
                 | _ => .error .typeError)
            | none => .ok full_data
    | _ => .ok full_data

/-! ### Characterization of pass 1 (`assignIds`) -/

/-- Index of the last occurrence of `x` in `l` (the Python-dict value that
survives repeated insertion under the same key). -/
def lastIdxOf : List String → String → Option Nat
  | [], _ => none
  | a :: rest, x =>
      match lastIdxOf rest x with
      | some i => some (i + 1)
      | none => if a = x then some 0 else none

theorem lastIdxOf_isSome_iff_mem (l : List String) (x : String) :
    (lastIdxOf l x).isSome ↔ x ∈ l := by
  induction l with
  | nil => simp [lastIdxOf]
  | cons a rest ih =>
    cases hl : lastIdxOf rest x with
    | some i =>
        simp only [lastIdxOf, hl, Option.isSome_some, List.mem_cons, true_iff]
        exact Or.inr (ih.mp (by simp [hl]))
    | none =>
        by_cases ha : a = x
        · simp [lastIdxOf, hl, ha]
        · simp only [lastIdxOf, hl, ha, if_false, List.mem_cons]
          constructor
          · intro h; simp at h
          · intro h
            rcases h with h | h
            · exact absurd h.symm ha
            · have := ih.mpr h
              simp [hl] at this

theorem lastIdxOf_get (l : List String) (x : String) (L : Nat)
    (h : lastIdxOf l x = some L) : ∃ hL : L < l.length, l.get ⟨L, hL⟩ = x := by
  induction l generalizing L with
  | nil => simp [lastIdxOf] at h
  | cons a rest ih =>
    cases hl : lastIdxOf rest x with
    | some i =>
        simp only [lastIdxOf, hl] at h
        obtain rfl : L = i + 1 := (Option.some.inj h).symm
        obtain ⟨hi, hget⟩ := ih i hl
        exact ⟨by simpa using Nat.succ_lt_succ hi, by simpa using hget⟩
    | none =>
        simp only [lastIdxOf, hl] at h
        by_cases ha : a = x
        · simp only [ha, if_true] at h
          obtain rfl : L = 0 := (Option.some.inj h).symm
          exact ⟨by simp, by simpa using ha⟩
        · simp [ha] at h

theorem lastIdxOf_ge (l : List String) (x : String) (p : Nat) (hp : p < l.length)
    (hx : l.get ⟨p, hp⟩ = x) : ∃ L, lastIdxOf l x = some L ∧ p ≤ L := by
  induction l generalizing p with
  | nil => simp at hp
  | cons a rest ih =>
    cases p with
    | zero =>
        cases hl : lastIdxOf rest x with
        | some i => exact ⟨i + 1, by simp [lastIdxOf, hl], by omega⟩
        | none =>
            have ha : a = x := by simpa using hx
            exact ⟨0, by simp [lastIdxOf, hl, ha], Nat.le_refl 0⟩
    | succ q =>
        have hq : q < rest.length := by simpa using Nat.lt_of_succ_lt_succ hp
        have hget : rest.get ⟨q, hq⟩ = x := by simpa using hx
        obtain ⟨L, hL, hle⟩ := ih q hq hget
        exact ⟨L + 1, by simp [lastIdxOf, hL], Nat.succ_le_succ hle⟩

theorem lastIdxOf_last (l : List String) (x : String) (L : Nat)
    (h : lastIdxOf l x = some L) (p : Nat) (hp : p < l.length) (hLp : L < p) :
    l.get ⟨p, hp⟩ ≠ x := by
  induction l generalizing L p with
  | nil => simp at hp
  | cons a rest ih =>
    cases hl : lastIdxOf rest x with
    | some i =>
        simp only [lastIdxOf, hl] at h
        have hL : L = i + 1 := by simp_all
        cases p with
        | zero => omega
        | succ q =>
            have hq : q < rest.length := by simpa using Nat.lt_of_succ_lt_succ hp
            have := ih i hl q hq (by omega)
            simpa using this
    | none =>
        simp only [lastIdxOf, hl] at h
        by_cases ha : a = x
        · simp only [ha, if_true] at h
          have hL : L = 0 := by simp_all
          cases p with
          | zero => omega
          | succ q =>
              have hq : q < rest.length := by simpa using Nat.lt_of_succ_lt_succ hp
              intro hc
              have hc' : rest.get ⟨q, hq⟩ = x := by simpa using hc
              obtain ⟨L', hL', _⟩ := lastIdxOf_ge rest x q hq hc'
              simp [hl] at hL'
        · simp [ha] at h

theorem lastIdxOf_of_nodup (l : List String) (hnd : l.Nodup) (p : Nat)
    (hp : p < l.length) : lastIdxOf l (l.get ⟨p, hp⟩) = some p := by
  obtain ⟨L, hL, hle⟩ := lastIdxOf_ge l (l.get ⟨p, hp⟩) p hp rfl
  obtain ⟨hLlen, hget⟩ := lastIdxOf_get l _ L hL
  have : (⟨L, hLlen⟩ : Fin l.length) = ⟨p, hp⟩ := by
    apply (List.Nodup.get_inj_iff hnd).mp
    exact hget
  have hLp : L = p := by simpa using congrArg Fin.val this
  subst hLp
  exact hL

theorem assignIds_fst_lookup :
    ∀ (ns : List Node) (k : Nat) (m t : List (String × String)) (x : String),
      pyLookup (assignIds ns k (m, t)).1 x =
        match lastIdxOf (ns.map Node.name) x with
        | some i => some (Nat.repr (k + i))
        | none => pyLookup m x := by
  intro ns
  induction ns with
  | nil => intro k m t x; simp [assignIds, lastIdxOf]
  | cons n rest ih =>
    intro k m t x
    simp only [assignIds, List.map_cons]
    rw [ih (k + 1) (pyInsert m n.name (Nat.repr k)) (pyInsert t n.name n.node_type) x]
    cases hl : lastIdxOf (rest.map Node.name) x with
    | some i =>
        simp only [lastIdxOf, hl]
        have : k + 1 + i = k + (i + 1) := by omega
        rw [this]
    | none =>
        simp only [lastIdxOf, hl]
        by_cases hx : n.name = x
        · subst hx
          simp [pyLookup_pyInsert_self]
        · have hx' : x ≠ n.name := fun hh => hx hh.symm
          simp [hx, pyLookup_pyInsert_ne m n.name x (Nat.repr k) hx']

/-- Lookup in the id map built by pass 1: the id of the last occurrence. -/
theorem idMap_lookup (w : Workflow) (x : String) :
    pyLookup (assignIds (allNodes w) 1 ([], [])).1 x =
      match lastIdxOf (nodeNamesOf w) x with
      | some i => some (Nat.repr (1 + i))
      | none => none := by
  rw [assignIds_fst_lookup (allNodes w) 1 [] [] x]
  rfl

theorem idMap_lookup_none (w : Workflow) (x : String) (h : x ∉ nodeNamesOf w) :
    pyLookup (assignIds (allNodes w) 1 ([], [])).1 x = none := by
  rw [idMap_lookup]
  cases hl : lastIdxOf (nodeNamesOf w) x with
  | some i =>
      exact absurd ((lastIdxOf_isSome_iff_mem _ _).mp (by simp [hl])) h
  | none => rfl

theorem idMap_lookup_isSome (w : Workflow) (x : String) (h : x ∈ nodeNamesOf w) :
    (pyLookup (assignIds (allNodes w) 1 ([], [])).1 x).isSome := by
  rw [idMap_lookup]
  obtain ⟨i, hi⟩ := Option.isSome_iff_exists.mp ((lastIdxOf_isSome_iff_mem _ _).mpr h)
  simp [hi]

/-! ### Characterization of pass 2 (`emitNodes`) -/

/-- Proof device: the ordered list of converted records (first failure
propagates, like the Python loop). -/
def convertAllNodes (idMap typeMap : List (String × String))
    (mappings : List (String × List (String × Int))) :
    List Node → Except PyErr (List GraphNode)
  | [] => .ok []
  | n :: rest =>
      match convertNode idMap typeMap mappings n with
      | .error e => .error e
      | .ok r =>
          match convertAllNodes idMap typeMap mappings rest with
          | .error e => .error e
          | .ok rs => .ok (r :: rs)

/-- Proof device: records paired with consecutive decimal ids from `k`. -/
def reprZip (k : Nat) : List GraphNode → Graph
  | [] => []
  | r :: rest => (Nat.repr k, r) :: reprZip (k + 1) rest

theorem convertAllNodes_length (idMap typeMap : List (String × String))
    (mappings : List (String × List (String × Int))) :
    ∀ (ns : List Node) (rs : List GraphNode),
      convertAllNodes idMap typeMap mappings ns = .ok rs → rs.length = ns.length := by
  intro ns
  induction ns with
  | nil => intro rs h; simp [convertAllNodes] at h; simp [← h]
  | cons n rest ih =>
    intro rs h
    simp only [convertAllNodes] at h
    cases hn : convertNode idMap typeMap mappings n with
    | error e => rw [hn] at h; exact absurd h (by simp)
    | ok r =>
        rw [hn] at h
        cases hr : convertAllNodes idMap typeMap mappings rest with
        | error e => rw [hr] at h; exact absurd h (by simp)
        | ok rs' =>
            rw [hr] at h
            have : rs = r :: rs' := by simpa using h.symm
            subst this
            simp [ih rs' hr]

theorem convertAllNodes_forall (idMap typeMap : List (String × String))
    (mappings : List (String × List (String × Int))) :
    ∀ (ns : List Node) (rs : List GraphNode),
      convertAllNodes idMap typeMap mappings ns = .ok rs →
      List.Forall₂ (fun n r => convertNode idMap typeMap mappings n = .ok r) ns rs := by
  intro ns
  induction ns with
  | nil =>
    intro rs h
    simp only [convertAllNodes] at h
    have : rs = [] := by simpa using h.symm
    subst this
    exact List.Forall₂.nil
  | cons n rest ih =>
    intro rs h
    simp only [convertAllNodes] at h
    cases hn : convertNode idMap typeMap mappings n with
    | error e => rw [hn] at h; exact absurd h (by simp)
    | ok r =>
        rw [hn] at h
        cases hr : convertAllNodes idMap typeMap mappings rest with
        | error e => rw [hr] at h; exact absurd h (by simp)
        | ok rs' =>
            rw [hr] at h
            have : rs = r :: rs' := by simpa using h.symm
            subst this
            exact List.Forall₂.cons hn (ih rs' hr)

theorem reprZip_keys (rs : List GraphNode) :
    ∀ k, (reprZip k rs).map Prod.fst = (List.range rs.length).map fun i => Nat.repr (k + i) := by
  induction rs with
  | nil => intro k; simp [reprZip]
  | cons r rest ih =>
    intro k
    simp only [reprZip, List.map_cons, List.length_cons, List.range_succ_eq_map,
      List.map_map]
    congr 1
    rw [ih (k + 1)]
    apply List.map_congr_left
    intro i _
    simp only [Function.comp]
    congr 1
    omega

theorem reprZip_length (rs : List GraphNode) : ∀ k, (reprZip k rs).length = rs.length := by
  induction rs with
  | nil => intro k; simp [reprZip]
  | cons r rest ih => intro k; simp [reprZip, ih]

/-- Emission over nodes whose id-map lookups are the consecutive decimal ids
from `k` lands exactly at `acc ++ reprZip k records` (the accumulated dict
keys being ids below `k`, no insertion ever overwrites). -/
theorem emitNodes_eq (idMap typeMap : List (String × String))
    (mappings : List (String × List (String × Int))) :
    ∀ (ns : List Node) (k : Nat) (acc : Graph),
      (∀ (p : Nat) (hp : p < ns.length),
        pyLookup idMap (ns.get ⟨p, hp⟩).name = some (Nat.repr (k + p))) →
      (∀ key ∈ acc.map Prod.fst, ∃ j, 1 ≤ j ∧ j < k ∧ key = Nat.repr j) →
      1 ≤ k →
      emitNodes idMap typeMap mappings ns acc =
        Except.map (fun rs => acc ++ reprZip k rs)
          (convertAllNodes idMap typeMap mappings ns) := by
  intro ns
  induction ns with
  | nil =>
    intro k acc hids hacc hk
    simp [emitNodes, convertAllNodes, Except.map, reprZip]
  | cons n rest ih =>
    intro k acc hids hacc hk
    have h0 : pyLookup idMap n.name = some (Nat.repr k) := by
      have := hids 0 (by simp)
      simpa using this
    cases hn : convertNode idMap typeMap mappings n with
    | error e => simp [emitNodes, getItem, h0, convertAllNodes, hn, Except.map]
    | ok r =>
        have hfresh : pyLookup acc (Nat.repr k) = none := by
          apply pyLookup_eq_none_of_not_mem_keys
          intro hmem
          obtain ⟨j, hj1, hjk, hjr⟩ := hacc (Nat.repr k) hmem
          have : k = j := natRepr_inj hjr
          omega
        have step : emitNodes idMap typeMap mappings (n :: rest) acc =
            emitNodes idMap typeMap mappings rest (pyInsert acc (Nat.repr k) r) := by
          simp [emitNodes, getItem, h0, hn]
        rw [step, pyInsert_eq_append acc (Nat.repr k) r hfresh]
        have hids' : ∀ (p : Nat) (hp : p < rest.length),
            pyLookup idMap (rest.get ⟨p, hp⟩).name = some (Nat.repr (k + 1 + p)) := by
          intro p hp
          have := hids (p + 1) (by simpa using Nat.succ_lt_succ hp)
          have heq : k + (p + 1) = k + 1 + p := by omega
          simpa [heq] using this
        have hacc' : ∀ key ∈ (acc ++ [(Nat.repr k, r)]).map Prod.fst,
            ∃ j, 1 ≤ j ∧ j < k + 1 ∧ key = Nat.repr j := by
          intro key hkey
          simp only [List.map_append, List.mem_append, List.map_cons, List.map_nil,
            List.mem_singleton] at hkey
          rcases hkey with hkey | hkey
          · obtain ⟨j, hj1, hjk, hjr⟩ := hacc key hkey
            exact ⟨j, hj1, by omega, hjr⟩
          · exact ⟨k, hk, by omega, by simpa using hkey⟩
        rw [ih (k + 1) (acc ++ [(Nat.repr k, r)]) hids' hacc' (by omega)]
        simp only [convertAllNodes, hn]
        cases hr : convertAllNodes idMap typeMap mappings rest with
        | error e => simp [Except.map]
        | ok rs => simp [Except.map, reprZip, List.append_assoc]

/-- For workflows with pairwise-distinct node names, `convert` is emission
of the converted records under the ids `"1"`, `"2"`, … in encounter order. -/
theorem convertCore_eq (mappings : List (String × List (String × Int))) (w : Workflow)
    (hnd : (nodeNamesOf w).Nodup) :
    convertCore mappings w =
      Except.map (fun rs => reprZip 1 rs)
        (convertAllNodes (assignIds (allNodes w) 1 ([], [])).1
          (assignIds (allNodes w) 1 ([], [])).2 mappings (allNodes w)) := by
  show emitNodes _ _ mappings (allNodes w) [] = _
  rw [emitNodes_eq _ _ mappings (allNodes w) 1 [] ?hids (by simp) (Nat.le_refl 1)]
  · apply congrArg₂ _ _ rfl
    funext rs
    simp
  case hids =>
    intro p hp
    rw [idMap_lookup w]
    have hget : (nodeNamesOf w).get ⟨p, by simpa [nodeNamesOf] using hp⟩ =
        ((allNodes w).get ⟨p, hp⟩).name := by
      simp [nodeNamesOf]
    rw [show ((allNodes w).get ⟨p, hp⟩).name =
        (nodeNamesOf w).get ⟨p, by simpa [nodeNamesOf] using hp⟩ from hget.symm]
    rw [lastIdxOf_of_nodup (nodeNamesOf w) hnd p (by simpa [nodeNamesOf] using hp)]

theorem exceptMap_ok {ε α β : Type} (f : α → β) (e : Except ε α) (b : β)
    (h : Except.map f e = .ok b) : ∃ a, e = .ok a ∧ b = f a := by
  cases e with
  | error er => simp [Except.map] at h
  | ok a =>
      refine ⟨a, rfl, ?_⟩
      simpa [Except.map] using h.symm

/-- C2: on a Workflow with `N` (distinctly named) nodes, a successful
`DslToJsonConverter.convert` yields exactly `N` records keyed `"1"`..`"N"`
in section-then-node encounter order, and the result depends only on the
mapping table, not on the converter instance's leftover state: it is
deterministic across calls. -/
theorem claim_C2 (c c' : DslToJsonConverter) (w : Workflow) (g : Graph)
    (hmap : c'.output_mappings = c.output_mappings)
    (hnd : (nodeNamesOf w).Nodup)
    (hok : c.convert w = .ok g) :
    g.length = (allNodes w).length ∧
    g.map Prod.fst = (List.range (allNodes w).length).map (fun i => Nat.repr (1 + i)) ∧
    c'.convert w = c.convert w := by
  have hcc : c.convert w = convertCore c.output_mappings w := rfl
  rw [hcc, convertCore_eq c.output_mappings w hnd] at hok
  obtain ⟨rs, hrs, hg⟩ := exceptMap_ok _ _ _ hok
  have hlen := convertAllNodes_length _ _ _ _ _ hrs
  subst hg
  refine ⟨by rw [reprZip_length, hlen], ?_, ?_⟩
  · rw [reprZip_keys, hlen]
  · show convertCore c'.output_mappings w = c.convert w
    rw [hmap]
    rfl

/-- Concrete data for the C2 witness. -/
def c2w : Workflow :=
  ⟨[⟨"Model Loading", [⟨"checkpoint", "CheckpointLoaderSimple",
      [⟨"ckpt_name", .str "model.safetensors"⟩]⟩]⟩,
    ⟨"Output", [⟨"save", "SaveImage",
      [⟨"images", .conn ⟨"checkpoint", "model"⟩⟩]⟩]⟩]⟩

def c2conv : DslToJsonConverter := ⟨DEFAULT_OUTPUT_MAPPINGS, [], [], 1⟩

/-- A converter instance carrying stale state from an earlier call. -/
def c2convStale : DslToJsonConverter :=
  ⟨DEFAULT_OUTPUT_MAPPINGS, [("x", "9")], [("x", "T")], 42⟩

def c2graph : Graph :=
  [("1", ⟨"CheckpointLoaderSimple", [("ckpt_name", .str "model.safetensors")]⟩),
   ("2", ⟨"SaveImage", [("images", .arr [.str "1", .int 0])]⟩)]

theorem claim_C2_witness :
    (nodeNamesOf c2w).Nodup ∧ c2conv.convert c2w = .ok c2graph ∧
    (c2graph.length = (allNodes c2w).length ∧
     c2graph.map Prod.fst =
       (List.range (allNodes c2w).length).map (fun i => Nat.repr (1 + i)) ∧
     c2convStale.convert c2w = c2conv.convert c2w) :=
  ⟨by decide, rfl, claim_C2 c2conv c2convStale c2w c2graph rfl (by decide) rfl⟩

/-! ### Literal-only round trip (C1) -/

/-- Whether a property value is a `Connection`. -/
def PropValue.isConn : PropValue → Bool
  | .conn _ => true
  | _ => false

/-- Whether a graph value has the 2-element-list shape that
`JsonToDslConverter._convert_value` treats as a connection. -/
def JVal.isConnShape : JVal → Bool
  | .arr [_, _] => true
  | _ => false

/-- All property values of the workflow are literals (no `Connection`). -/
def literalOnly (w : Workflow) : Bool :=
  (allNodes w).all fun n => n.properties.all fun p => !p.value.isConn

theorem convertValue_lit (idMap typeMap : List (String × String))
    (mappings : List (String × List (String × Int))) (v : PropValue)
    (h : v.isConn = false) :
    ∃ j, convertValue idMap typeMap mappings v = .ok j ∧ j.isConnShape = false := by
  cases v with
  | conn c => simp [PropValue.isConn] at h
  | int i => exact ⟨.int i, rfl, rfl⟩
  | float f => exact ⟨.float f, rfl, rfl⟩
  | bool b => exact ⟨.bool b, rfl, rfl⟩
  | str s => exact ⟨.str s, rfl, rfl⟩

theorem convertNodeInputs_lit (idMap typeMap : List (String × String))
    (mappings : List (String × List (String × Int))) :
    ∀ (props : List Property) (acc : List (String × JVal)),
      (∀ p ∈ props, p.value.isConn = false) →
      (∀ v ∈ acc.map Prod.snd, JVal.isConnShape v = false) →
      ∃ ins, convertNodeInputs idMap typeMap mappings props acc = .ok ins ∧
        ∀ v ∈ ins.map Prod.snd, JVal.isConnShape v = false := by
  intro props
  induction props with
  | nil => intro acc _ hacc; exact ⟨acc, rfl, hacc⟩
  | cons p rest ih =>
    intro acc hlit hacc
    obtain ⟨j, hj, hjs⟩ := convertValue_lit idMap typeMap mappings p.value
      (hlit p (by simp))
    have hacc' : ∀ v ∈ (pyInsert acc p.name j).map Prod.snd, JVal.isConnShape v = false := by
      intro v hv
      rcases mem_values_pyInsert acc p.name j v hv with hv | hv
      · exact hacc v hv
      · rw [hv]; exact hjs
    obtain ⟨ins, hins, hinss⟩ := ih (pyInsert acc p.name j)
      (fun q hq => hlit q (by simp [hq])) hacc'
    refine ⟨ins, ?_, hinss⟩
    simp only [convertNodeInputs, hj]
    exact hins

theorem convertNode_lit (idMap typeMap : List (String × String))
    (mappings : List (String × List (String × Int))) (n : Node)
    (h : ∀ p ∈ n.properties, p.value.isConn = false) :
    ∃ r, convertNode idMap typeMap mappings n = .ok r ∧
      r.class_type = n.node_type ∧
      ∀ v ∈ r.inputs.map Prod.snd, JVal.isConnShape v = false := by
  obtain ⟨ins, hins, hinss⟩ :=
    convertNodeInputs_lit idMap typeMap mappings n.properties [] h (by simp)
  refine ⟨⟨n.node_type, ins⟩, ?_, rfl, hinss⟩
  simp only [convertNode, hins]

theorem convertAllNodes_lit (idMap typeMap : List (String × String))
    (mappings : List (String × List (String × Int))) :
    ∀ (ns : List Node),
      (∀ n ∈ ns, ∀ p ∈ n.properties, p.value.isConn = false) →
      ∃ rs, convertAllNodes idMap typeMap mappings ns = .ok rs ∧
        rs.map GraphNode.class_type = ns.map Node.node_type ∧
        ∀ r ∈ rs, ∀ v ∈ r.inputs.map Prod.snd, JVal.isConnShape v = false := by
  intro ns
  induction ns with
  | nil => exact fun _ => ⟨[], rfl, rfl, by simp⟩
  | cons n rest ih =>
    intro h
    obtain ⟨r, hr, hct, hrs⟩ := convertNode_lit idMap typeMap mappings n
      (h n (by simp))
    obtain ⟨rs, hcs, hcts, hsafe⟩ := ih (fun q hq => h q (by simp [hq]))
    refine ⟨r :: rs, ?_, by simp [hct, hcts], ?_⟩
    · simp only [convertAllNodes, hr, hcs]
    · intro r' hr'
      rcases List.mem_cons.mp hr' with hr' | hr'
      · rw [hr']; exact hrs
      · exact hsafe r' hr'

theorem reprZip_snd (rs : List GraphNode) : ∀ k, (reprZip k rs).map Prod.snd = rs := by
  induction rs with
  | nil => intro k; simp [reprZip]
  | cons r rest ih => intro k; simp [reprZip, ih]

/-! ### Success of `JsonToDslConverter.convert` on connection-free graphs -/

theorem pyLookup_pyInsert_isSome [DecidableEq α] (d : List (α × β)) (k k' : α) (v : β)
    (h : (pyLookup d k').isSome) : (pyLookup (pyInsert d k v) k').isSome := by
  by_cases hk : k' = k
  · subst hk; simp [pyLookup_pyInsert_self]
  · rw [pyLookup_pyInsert_ne d k k' v hk]; exact h

theorem generateNodeNamesAux_covers :
    ∀ (entries : List (String × GraphNode)) (names : List (String × String))
      (counts : List (String × Nat)) (key : String),
      key ∈ entries.map Prod.fst ∨ (pyLookup names key).isSome →
      (pyLookup (generateNodeNamesAux entries names counts) key).isSome := by
  intro entries
  induction entries with
  | nil =>
    intro names counts key h
    rcases h with h | h
    · simp at h
    · simpa [generateNodeNamesAux] using h
  | cons e rest ih =>
    intro names counts key h
    obtain ⟨nid, nd⟩ := e
    have hstep : ∀ (nm : String),
        key ∈ rest.map Prod.fst ∨ (pyLookup (pyInsert names nid nm) key).isSome := by
      intro nm
      rcases h with h | h
      · simp only [List.map_cons, List.mem_cons] at h
        rcases h with h | h
        · subst h
          exact Or.inr (by simp [pyLookup_pyInsert_self])
        · exact Or.inl h
      · exact Or.inr (pyLookup_pyInsert_isSome names nid key nm h)
    simp only [generateNodeNamesAux]
    cases hc : pyLookup counts (typeToName nd.class_type) with
    | none => exact ih _ _ key (hstep _)
    | some c => exact ih _ _ key (hstep _)

theorem generateNodeNames_covers (g : Graph) (key : String)
    (h : key ∈ g.map Prod.fst) : (pyLookup (generateNodeNames g) key).isSome :=
  generateNodeNamesAux_covers g [] [] key (Or.inl h)

theorem jsonConvertValue_safe (revMappings : List (String × List (Int × String)))
    (node_names : List (String × String)) (json_data : Graph) (v : JVal)
    (h : v.isConnShape = false) :
    ∃ pv, jsonConvertValue revMappings node_names json_data v = .ok pv := by
  cases v with
  | int i => exact ⟨.int i, rfl⟩
  | float f => exact ⟨.float f, rfl⟩
  | bool b => exact ⟨.bool b, rfl⟩
  | str s => exact ⟨.str s, rfl⟩
  | arr xs =>
      match xs with
      | [] => exact ⟨.str (pyStr (.arr [])), rfl⟩
      | [a] => exact ⟨.str (pyStr (.arr [a])), rfl⟩
      | [a, b] => simp [JVal.isConnShape] at h
      | a :: b :: c :: t => exact ⟨.str (pyStr (.arr (a :: b :: c :: t))), rfl⟩

theorem convertProps_safe (revMappings : List (String × List (Int × String)))
    (node_names : List (String × String)) (json_data : Graph) :
    ∀ (inputs : List (String × JVal)),
      (∀ v ∈ inputs.map Prod.snd, JVal.isConnShape v = false) →
      ∃ ps, convertProps revMappings node_names json_data inputs = .ok ps := by
  intro inputs
  induction inputs with
  | nil => exact fun _ => ⟨[], rfl⟩
  | cons e rest ih =>
    intro h
    obtain ⟨pn, pv⟩ := e
    obtain ⟨cv, hcv⟩ := jsonConvertValue_safe revMappings node_names json_data pv
      (h pv (by simp))
    obtain ⟨ps, hps⟩ := ih (fun v hv => h v (by simp [hv]))
    exact ⟨⟨pn, cv⟩ :: ps, by simp only [convertProps, hcv, hps]⟩

/-- Appending a node to `sections_dict[k]` adds exactly that node to the
flattened node list, up to permutation. -/
theorem dictAppend_flatten_perm (d : List (String × List Node)) (k : String) (v : Node) :
    (((dictAppend d k v).map Prod.snd).flatten).Perm
      ((d.map Prod.snd).flatten ++ [v]) := by
  induction d with
  | nil => simp [dictAppend]
  | cons e rest ih =>
    obtain ⟨k', vs⟩ := e
    by_cases hk : k' = k
    · simp only [dictAppend, hk, if_true, List.map_cons, List.flatten_cons]
      have P := List.Perm.append_left vs
        (@List.perm_append_comm _ [v] ((rest.map Prod.snd).flatten))
      simpa [List.append_assoc] using P
    · simp only [dictAppend, hk, if_false, List.map_cons, List.flatten_cons]
      have P := List.Perm.append_left vs ih
      simpa [List.append_assoc] using P

theorem groupEntries_ok_perm (revMappings : List (String × List (Int × String)))
    (node_names : List (String × String)) (json_data : Graph) :
    ∀ (entries : List (String × GraphNode)) (acc : List (String × List Node)),
      (∀ e ∈ entries, (pyLookup node_names e.1).isSome) →
      (∀ e ∈ entries, ∀ v ∈ e.2.inputs.map Prod.snd, JVal.isConnShape v = false) →
      ∃ d, groupEntries revMappings node_names json_data entries acc = .ok d ∧
        (((d.map Prod.snd).flatten).map Node.node_type).Perm
          ((((acc.map Prod.snd).flatten).map Node.node_type) ++
            entries.map fun e => e.2.class_type) := by
  intro entries
  induction entries with
  | nil => exact fun acc _ _ => ⟨acc, rfl, by simp⟩
  | cons e rest ih =>
    intro acc hnm hsafe
    obtain ⟨nid, nd⟩ := e
    obtain ⟨nm, hnm0⟩ := Option.isSome_iff_exists.mp (hnm (nid, nd) (by simp))
    obtain ⟨ps, hps⟩ := convertProps_safe revMappings node_names json_data nd.inputs
      (hsafe (nid, nd) (by simp))
    obtain ⟨d, hd, hperm⟩ := ih
      (dictAppend acc (inferSectionName nd.class_type) ⟨nm, nd.class_type, ps⟩)
      (fun q hq => hnm q (by simp [hq])) (fun q hq => hsafe q (by simp [hq]))
    refine ⟨d, ?_, ?_⟩
    · simp only [groupEntries, getItem, hnm0, hps]
      exact hd
    · have hstep := dictAppend_flatten_perm acc (inferSectionName nd.class_type)
        ⟨nm, nd.class_type, ps⟩
      have hstep' := hstep.map Node.node_type
      have hfinal : ((((acc.map Prod.snd).flatten) ++
            [(⟨nm, nd.class_type, ps⟩ : Node)]).map Node.node_type)
            ++ rest.map (fun e => e.2.class_type) =
          (((acc.map Prod.snd).flatten).map Node.node_type) ++
            (((nid, nd) :: rest).map fun e => e.2.class_type) := by
        simp [List.append_assoc]
      exact (hperm.trans (List.Perm.append_right _ hstep')).trans
        (hfinal ▸ List.Perm.refl _)

/-- C1: for a Workflow whose property values are all literals (and whose
node names satisfy the data-model uniqueness invariant), DSL→graph→DSL
conversion preserves the multiset of `node_type`s over all nodes. -/
theorem claim_C1 (w : Workflow) (hlit : literalOnly w = true)
    (hnd : (nodeNamesOf w).Nodup) :
    ∃ g w2, (⟨DEFAULT_OUTPUT_MAPPINGS, [], [], 1⟩ : DslToJsonConverter).convert w = .ok g ∧
      (⟨DEFAULT_OUTPUT_MAPPINGS⟩ : JsonToDslConverter).convert g = .ok w2 ∧
      ((allNodes w2).map Node.node_type).Perm ((allNodes w).map Node.node_type) := by
  have hlit' : ∀ n ∈ allNodes w, ∀ p ∈ n.properties, p.value.isConn = false := by
    intro n hn p hp
    have h1 := (List.all_eq_true.mp hlit) n hn
    have h2 := (List.all_eq_true.mp h1) p hp
    simpa using h2
  obtain ⟨rs, hrs, hcts, hsafe⟩ := convertAllNodes_lit
    (assignIds (allNodes w) 1 ([], [])).1 (assignIds (allNodes w) 1 ([], [])).2
    DEFAULT_OUTPUT_MAPPINGS (allNodes w) hlit'
  have hconv : (⟨DEFAULT_OUTPUT_MAPPINGS, [], [], 1⟩ : DslToJsonConverter).convert w =
      .ok (reprZip 1 rs) := by
    show convertCore DEFAULT_OUTPUT_MAPPINGS w = _
    rw [convertCore_eq DEFAULT_OUTPUT_MAPPINGS w hnd, hrs]
    rfl
  set g := reprZip 1 rs with hg
  have hmem_snd : ∀ e ∈ g, e.2 ∈ rs := by
    intro e he
    have : e.2 ∈ g.map Prod.snd := List.mem_map_of_mem Prod.snd he
    rwa [hg, reprZip_snd] at this
  have hnames : ∀ e ∈ g, (pyLookup (generateNodeNames g) e.1).isSome := by
    intro e he
    exact generateNodeNames_covers g e.1 (List.mem_map_of_mem Prod.fst he)
  have hsafe' : ∀ e ∈ g, ∀ v ∈ e.2.inputs.map Prod.snd, JVal.isConnShape v = false := by
    intro e he
    exact hsafe e.2 (hmem_snd e he)
  obtain ⟨d, hd, hperm⟩ := groupEntries_ok_perm
    (reverseMappings DEFAULT_OUTPUT_MAPPINGS) (generateNodeNames g) g g [] hnames hsafe'
  refine ⟨g, ⟨(d.map fun p => ⟨p.1, p.2⟩ : List Section)⟩, hconv, ?_, ?_⟩
  · show JsonToDslConverter.convert _ g = _
    simp only [JsonToDslConverter.convert, hd]
  · have hall : allNodes ⟨d.map fun p => ⟨p.1, p.2⟩⟩ = (d.map Prod.snd).flatten := by
      simp only [allNodes, List.map_map]
      have hcomp : (Section.nodes ∘ fun p : String × List Node =>
          ({ header := p.1, nodes := p.2 } : Section)) = Prod.snd := by
        funext p
        rfl
      rw [hcomp]
    rw [hall]
    have hcls : g.map (fun e => e.2.class_type) = (allNodes w).map Node.node_type := by
      have h1 : g.map (fun e => e.2.class_type) =
          (g.map Prod.snd).map GraphNode.class_type := by
        rw [List.map_map]
        rfl
      rw [h1, hg, reprZip_snd, hcts]
    have hperm' : (((d.map Prod.snd).flatten).map Node.node_type).Perm
        (g.map fun e => e.2.class_type) := by simpa using hperm
    exact hperm'.trans (hcls ▸ List.Perm.refl _)

/-- Concrete data for the C1 witness. -/
def c1w : Workflow :=
  ⟨[⟨"A", [⟨"first", "CheckpointLoaderSimple", [⟨"ckpt_name", .str "m.safetensors"⟩]⟩]⟩,
    ⟨"B", [⟨"second", "KSampler", [⟨"steps", .int 20⟩, ⟨"fancy", .bool true⟩]⟩]⟩]⟩

theorem claim_C1_witness :
    literalOnly c1w = true ∧ (nodeNamesOf c1w).Nodup ∧
    ∃ g w2, (⟨DEFAULT_OUTPUT_MAPPINGS, [], [], 1⟩ : DslToJsonConverter).convert c1w = .ok g ∧
      (⟨DEFAULT_OUTPUT_MAPPINGS⟩ : JsonToDslConverter).convert g = .ok w2 ∧
      ((allNodes w2).map Node.node_type).Perm ((allNodes c1w).map Node.node_type) :=
  ⟨by decide, by decide, claim_C1 c1w (by decide) (by decide)⟩

/-! ### Unresolved references (C4) -/

theorem convertValue_conn_unresolved (idMap typeMap : List (String × String))
    (mappings : List (String × List (String × Int))) (cn : Connection)
    (h : pyLookup idMap cn.node = none) :
    convertValue idMap typeMap mappings (.conn cn) = .error (.keyError cn.node) := by
  simp only [convertValue, getItem, h]

theorem convertValue_error (idMap typeMap : List (String × String))
    (mappings : List (String × List (String × Int))) (v : PropValue) (e : PyErr)
    (h : convertValue idMap typeMap mappings v = .error e) :
    ∃ k, e = .keyError k ∧ pyLookup idMap k = none := by
  cases v with
  | conn cn =>
      cases hg : pyLookup idMap cn.node with
      | none =>
          rw [convertValue_conn_unresolved idMap typeMap mappings cn hg] at h
          exact ⟨cn.node, (Except.error.inj h).symm, hg⟩
      | some nid =>
          simp only [convertValue, getItem, hg] at h
          exact Except.noConfusion h
  | int i => simp [convertValue] at h
  | float f => simp [convertValue] at h
  | bool b => simp [convertValue] at h
  | str s => simp [convertValue] at h

theorem convertNodeInputs_error (idMap typeMap : List (String × String))
    (mappings : List (String × List (String × Int))) :
    ∀ (props : List Property) (acc : List (String × JVal)) (e : PyErr),
      convertNodeInputs idMap typeMap mappings props acc = .error e →
      ∃ k, e = .keyError k ∧ pyLookup idMap k = none := by
  intro props
  induction props with
  | nil => intro acc e h; simp [convertNodeInputs] at h
  | cons p rest ih =>
    intro acc e h
    cases hv : convertValue idMap typeMap mappings p.value with
    | error e' =>
        simp only [convertNodeInputs, hv] at h
        exact (Except.error.inj h) ▸ convertValue_error idMap typeMap mappings p.value e' hv
    | ok v =>
        simp only [convertNodeInputs, hv] at h
        exact ih (pyInsert acc p.name v) e h

theorem convertNode_error (idMap typeMap : List (String × String))
    (mappings : List (String × List (String × Int))) (n : Node) (e : PyErr)
    (h : convertNode idMap typeMap mappings n = .error e) :
    ∃ k, e = .keyError k ∧ pyLookup idMap k = none := by
  cases hi : convertNodeInputs idMap typeMap mappings n.properties [] with
  | error e' =>
      simp only [convertNode, hi] at h
      exact (Except.error.inj h) ▸
        convertNodeInputs_error idMap typeMap mappings n.properties [] e' hi
  | ok ins =>
      simp only [convertNode, hi] at h
      exact Except.noConfusion h

theorem convertNodeInputs_ok_forall (idMap typeMap : List (String × String))
    (mappings : List (String × List (String × Int))) :
    ∀ (props : List Property) (acc : List (String × JVal)) (ins : List (String × JVal)),
      convertNodeInputs idMap typeMap mappings props acc = .ok ins →
      ∀ p ∈ props, ∃ v, convertValue idMap typeMap mappings p.value = .ok v := by
  intro props
  induction props with
  | nil => intro acc ins _ p hp; simp at hp
  | cons q rest ih =>
    intro acc ins h p hp
    cases hv : convertValue idMap typeMap mappings q.value with
    | error e =>
        simp only [convertNodeInputs, hv] at h
        exact Except.noConfusion h
    | ok v =>
        rcases List.mem_cons.mp hp with hp | hp
        · exact ⟨v, hp ▸ hv⟩
        · simp only [convertNodeInputs, hv] at h
          exact ih (pyInsert acc q.name v) ins h p hp

theorem emitNodes_ok_forall (idMap typeMap : List (String × String))
    (mappings : List (String × List (String × Int))) :
    ∀ (ns : List Node) (acc : Graph) (g : Graph),
      emitNodes idMap typeMap mappings ns acc = .ok g →
      ∀ n ∈ ns, ∃ r, convertNode idMap typeMap mappings n = .ok r := by
  intro ns
  induction ns with
  | nil => intro acc g _ n hn; simp at hn
  | cons m rest ih =>
    intro acc g h n hn
    cases hg : getItem idMap m.name with
    | error e =>
        simp only [emitNodes, hg] at h
        exact Except.noConfusion h
    | ok nid =>
        cases hc : convertNode idMap typeMap mappings m with
        | error e =>
            simp only [emitNodes, hg, hc] at h
            exact Except.noConfusion h
        | ok r =>
            rcases List.mem_cons.mp hn with hn | hn
            · exact ⟨r, hn ▸ hc⟩
            · simp only [emitNodes, hg, hc] at h
              exact ih (pyInsert acc nid r) g h n hn

theorem emitNodes_error (idMap typeMap : List (String × String))
    (mappings : List (String × List (String × Int))) :
    ∀ (ns : List Node) (acc : Graph) (e : PyErr),
      emitNodes idMap typeMap mappings ns acc = .error e →
      (∀ n ∈ ns, (pyLookup idMap n.name).isSome) →
      ∃ k, e = .keyError k ∧ pyLookup idMap k = none := by
  intro ns
  induction ns with
  | nil => intro acc e h _; simp [emitNodes] at h
  | cons m rest ih =>
    intro acc e h hnames
    cases hg : pyLookup idMap m.name with
    | none =>
        have := hnames m (by simp)
        simp [hg] at this
    | some nid =>
        cases hc : convertNode idMap typeMap mappings m with
        | error e' =>
            simp only [emitNodes, getItem, hg, hc] at h
            exact (Except.error.inj h) ▸ convertNode_error idMap typeMap mappings m e' hc
        | ok r =>
            simp only [emitNodes, getItem, hg, hc] at h
            exact ih (pyInsert acc nid r) e h (fun q hq => hnames q (by simp [hq]))

/-- C4 (amended): a Workflow containing a Connection to an undeclared node
name makes `DslToJsonConverter.convert` fail with a bare `KeyError` carrying
an undeclared node name, and no graph is produced.  (The raised `KeyError`
does not carry the offending property's name; see the counterexample.) -/
theorem claim_C4 (c : DslToJsonConverter) (w : Workflow)
    (hbad : ∃ n ∈ allNodes w, ∃ p ∈ n.properties, ∃ cn,
      p.value = PropValue.conn cn ∧ cn.node ∉ nodeNamesOf w) :
    ∃ k, c.convert w = .error (.keyError k) ∧ k ∉ nodeNamesOf w := by
  obtain ⟨n, hn, p, hp, cn, hpv, hcn⟩ := hbad
  have hnames : ∀ m ∈ allNodes w,
      (pyLookup (assignIds (allNodes w) 1 ([], [])).1 m.name).isSome := by
    intro m hm
    exact idMap_lookup_isSome w m.name (List.mem_map_of_mem Node.name hm)
  have hconv : c.convert w =
      emitNodes (assignIds (allNodes w) 1 ([], [])).1
        (assignIds (allNodes w) 1 ([], [])).2 c.output_mappings (allNodes w) [] := rfl
  cases hc : c.convert w with
  | ok g =>
      exfalso
      rw [hconv] at hc
      obtain ⟨r, hr⟩ := emitNodes_ok_forall _ _ _ (allNodes w) [] g hc n hn
      cases hi : convertNodeInputs (assignIds (allNodes w) 1 ([], [])).1
          (assignIds (allNodes w) 1 ([], [])).2 c.output_mappings n.properties [] with
      | error e =>
          simp only [convertNode, hi] at hr
          exact Except.noConfusion hr
      | ok ins =>
          obtain ⟨v, hv⟩ := convertNodeInputs_ok_forall _ _ _ n.properties [] ins hi p hp
          rw [hpv, convertValue_conn_unresolved _ _ _ cn
            (idMap_lookup_none w cn.node hcn)] at hv
          exact Except.noConfusion hv
  | error e =>
      rw [hconv] at hc
      obtain ⟨k, hk, hknone⟩ := emitNodes_error _ _ _ (allNodes w) [] e hc hnames
      subst hk
      refine ⟨k, rfl, ?_⟩
      intro hmem
      have := idMap_lookup_isSome w k hmem
      simp [hknone] at this

/-- The two workflows of the C4 counterexample: identical except for the
name of the property holding the dangling connection `@Z.out`. -/
def c4wp : Workflow := ⟨[⟨"S", [⟨"X", "T", [⟨"p", .conn ⟨"Z", "out"⟩⟩]⟩]⟩]⟩

def c4wq : Workflow := ⟨[⟨"S", [⟨"X", "T", [⟨"q", .conn ⟨"Z", "out"⟩⟩]⟩]⟩]⟩

def c4conv : DslToJsonConverter := ⟨DEFAULT_OUTPUT_MAPPINGS, [], [], 1⟩

/-- C4 counterexample: the error raised for an unresolved reference is the
bare `KeyError("Z")` — two workflows whose offending properties have
different names (`"p"` vs `"q"`) produce the *identical* error value, so
the error does not identify the offending property, contradicting the claim
that it does. -/
theorem claim_C4_counterexample :
    c4conv.convert c4wp = .error (.keyError "Z") ∧
    c4conv.convert c4wq = .error (.keyError "Z") ∧
    "p" ≠ "q" :=
  ⟨rfl, rfl, by decide⟩

theorem claim_C4_witness :
    (∃ n ∈ allNodes c4wp, ∃ p ∈ n.properties, ∃ cn,
      p.value = PropValue.conn cn ∧ cn.node ∉ nodeNamesOf c4wp) ∧
    ∃ k, c4conv.convert c4wp = .error (.keyError k) ∧ k ∉ nodeNamesOf c4wp :=
  have hbad : ∃ n ∈ allNodes c4wp, ∃ p ∈ n.properties, ∃ cn,
      p.value = PropValue.conn cn ∧ cn.node ∉ nodeNamesOf c4wp :=
    ⟨⟨"X", "T", [⟨"p", .conn ⟨"Z", "out"⟩⟩]⟩, List.Mem.head _,
      ⟨"p", .conn ⟨"Z", "out"⟩⟩, List.Mem.head _, ⟨"Z", "out"⟩, rfl, by decide⟩
  ⟨hbad, claim_C4 c4conv c4wp hbad⟩

/-! ### Duplicate node names (C9) -/

theorem mem_keys_pyInsert_elim [DecidableEq α] (d : List (α × β)) (k k' : α) (v : β)
    (h : k' ∈ (pyInsert d k v).map Prod.fst) : k' ∈ d.map Prod.fst ∨ k' = k := by
  induction d with
  | nil =>
      simp only [pyInsert, List.map_cons, List.map_nil, List.mem_singleton] at h
      exact Or.inr h
  | cons e rest ih =>
    obtain ⟨k0, v0⟩ := e
    by_cases h0 : k0 = k
    · simp only [pyInsert, h0, if_true, List.map_cons, List.mem_cons] at h
      rcases h with h | h
      · exact Or.inr h
      · exact Or.inl (by simp [h])
    · simp only [pyInsert, h0, if_false, List.map_cons, List.mem_cons] at h
      rcases h with h | h
      · exact Or.inl (by simp [h])
      · rcases ih h with hh | hh
        · exact Or.inl (by simp only [List.map_cons, List.mem_cons]; exact Or.inr hh)
        · exact Or.inr hh

theorem convertValue_ok (idMap typeMap : List (String × String))
    (mappings : List (String × List (String × Int))) (v : PropValue)
    (h : ∀ cn, v = PropValue.conn cn → (pyLookup idMap cn.node).isSome) :
    ∃ j, convertValue idMap typeMap mappings v = .ok j := by
  cases v with
  | conn cn =>
      obtain ⟨nid, hnid⟩ := Option.isSome_iff_exists.mp (h cn rfl)
      exact ⟨.arr [.str nid, .int (getOutputIndex typeMap mappings cn.node cn.output)],
        by simp only [convertValue, getItem, hnid]⟩
  | int i => exact ⟨.int i, rfl⟩
  | float f => exact ⟨.float f, rfl⟩
  | bool b => exact ⟨.bool b, rfl⟩
  | str s => exact ⟨.str s, rfl⟩

theorem convertNodeInputs_ok (idMap typeMap : List (String × String))
    (mappings : List (String × List (String × Int))) :
    ∀ (props : List Property) (acc : List (String × JVal)),
      (∀ p ∈ props, ∀ cn, p.value = PropValue.conn cn → (pyLookup idMap cn.node).isSome) →
      ∃ ins, convertNodeInputs idMap typeMap mappings props acc = .ok ins := by
  intro props
  induction props with
  | nil => exact fun acc _ => ⟨acc, rfl⟩
  | cons p rest ih =>
    intro acc h
    obtain ⟨j, hj⟩ := convertValue_ok idMap typeMap mappings p.value
      (fun cn hcn => h p (by simp) cn hcn)
    obtain ⟨ins, hins⟩ := ih (pyInsert acc p.name j)
      (fun q hq => h q (by simp [hq]))
    exact ⟨ins, by simp only [convertNodeInputs, hj]; exact hins⟩

theorem convertNode_ok (idMap typeMap : List (String × String))
    (mappings : List (String × List (String × Int))) (n : Node)
    (h : ∀ p ∈ n.properties, ∀ cn, p.value = PropValue.conn cn →
      (pyLookup idMap cn.node).isSome) :
    ∃ r, convertNode idMap typeMap mappings n = .ok r := by
  obtain ⟨ins, hins⟩ := convertNodeInputs_ok idMap typeMap mappings n.properties [] h
  exact ⟨⟨n.node_type, ins⟩, by simp only [convertNode, hins]⟩

theorem emitNodes_ok (idMap typeMap : List (String × String))
    (mappings : List (String × List (String × Int))) :
    ∀ (ns : List Node) (acc : Graph),
      (∀ n ∈ ns, (pyLookup idMap n.name).isSome) →
      (∀ n ∈ ns, ∀ p ∈ n.properties, ∀ cn, p.value = PropValue.conn cn →
        (pyLookup idMap cn.node).isSome) →
      ∃ g, emitNodes idMap typeMap mappings ns acc = .ok g := by
  intro ns
  induction ns with
  | nil => exact fun acc _ _ => ⟨acc, rfl⟩
  | cons m rest ih =>
    intro acc hn hr
    obtain ⟨nid, hnid⟩ := Option.isSome_iff_exists.mp (hn m (by simp))
    obtain ⟨r, hrec⟩ := convertNode_ok idMap typeMap mappings m
      (fun p hp => hr m (by simp) p hp)
    obtain ⟨g, hg⟩ := ih (pyInsert acc nid r)
      (fun q hq => hn q (by simp [hq])) (fun q hq => hr q (by simp [hq]))
    exact ⟨g, by simp only [emitNodes, getItem, hnid, hrec]; exact hg⟩

/-- Structural facts about a successful emission: bounded growth, key
provenance, key monotonicity, and untouched-key preservation. -/
theorem emitNodes_facts (idMap typeMap : List (String × String))
    (mappings : List (String × List (String × Int))) :
    ∀ (ns : List Node) (acc : Graph) (g : Graph),
      emitNodes idMap typeMap mappings ns acc = .ok g →
      g.length ≤ acc.length + ns.length ∧
      (∀ x ∈ g.map Prod.fst,
        x ∈ acc.map Prod.fst ∨ ∃ n ∈ ns, pyLookup idMap n.name = some x) ∧
      (∀ x ∈ acc.map Prod.fst, x ∈ g.map Prod.fst) ∧
      (∀ x, (∀ n ∈ ns, pyLookup idMap n.name ≠ some x) →
        pyLookup g x = pyLookup acc x) := by
  intro ns
  induction ns with
  | nil =>
    intro acc g h
    have hg : g = acc := by
      simp only [emitNodes] at h
      exact (Except.ok.inj h).symm
    subst hg
    exact ⟨by simp, fun x hx => Or.inl hx, fun x hx => hx, fun x _ => rfl⟩
  | cons m rest ih =>
    intro acc g h
    cases hnid : pyLookup idMap m.name with
    | none =>
        simp only [emitNodes, getItem, hnid] at h
        exact Except.noConfusion h
    | some key =>
        cases hrec : convertNode idMap typeMap mappings m with
        | error e =>
            simp only [emitNodes, getItem, hnid, hrec] at h
            exact Except.noConfusion h
        | ok r =>
            simp only [emitNodes, getItem, hnid, hrec] at h
            obtain ⟨hlen, hsub, hmono, hpres⟩ := ih (pyInsert acc key r) g h
            refine ⟨?_, ?_, ?_, ?_⟩
            · have := length_pyInsert_le acc key r
              simp only [List.length_cons]
              omega
            · intro x hx
              rcases hsub x hx with hx' | hx'
              · rcases mem_keys_pyInsert_elim acc key x r hx' with hx'' | hx''
                · exact Or.inl hx''
                · exact Or.inr ⟨m, by simp, hx'' ▸ hnid⟩
              · obtain ⟨n, hn, hn'⟩ := hx'
                exact Or.inr ⟨n, by simp [hn], hn'⟩
            · intro x hx
              exact hmono x (mem_keys_pyInsert_of_mem acc key x r hx)
            · intro x hx
              have hkey : key ≠ x := by
                intro hk
                exact hx m (by simp) (hk ▸ hnid)
              rw [hpres x (fun n hn => hx n (by simp [hn]))]
              exact pyLookup_pyInsert_ne acc key x r (fun hh => hkey hh.symm)

/-- Emission splits along list concatenation. -/
theorem emitNodes_append (idMap typeMap : List (String × String))
    (mappings : List (String × List (String × Int))) :
    ∀ (a b : List Node) (acc : Graph),
      emitNodes idMap typeMap mappings (a ++ b) acc =
        match emitNodes idMap typeMap mappings a acc with
        | .error e => .error e
        | .ok g1 => emitNodes idMap typeMap mappings b g1 := by
  intro a
  induction a with
  | nil => intro b acc; simp [emitNodes]
  | cons m rest ih =>
    intro b acc
    cases hnid : getItem idMap m.name with
    | error e => simp only [List.cons_append, emitNodes, hnid]
    | ok nid =>
        cases hrec : convertNode idMap typeMap mappings m with
        | error e => simp only [List.cons_append, emitNodes, hnid, hrec]
        | ok r =>
            simp only [List.cons_append, emitNodes, hnid, hrec]
            exact ih b (pyInsert acc nid r)

/-- `lastIdxOf` over a concatenation. -/
theorem lastIdxOf_append :
    ∀ (l1 l2 : List String) (x : String),
      lastIdxOf (l1 ++ l2) x =
        match lastIdxOf l2 x with
        | some t => some (l1.length + t)
        | none => lastIdxOf l1 x := by
  intro l1
  induction l1 with
  | nil =>
    intro l2 x
    cases hl : lastIdxOf l2 x with
    | some t => simp [hl]
    | none => simp [hl, lastIdxOf]
  | cons a rest ih =>
    intro l2 x
    have hstep : lastIdxOf ((a :: rest) ++ l2) x =
        match lastIdxOf (rest ++ l2) x with
        | some i => some (i + 1)
        | none => if a = x then some 0 else none := rfl
    rw [hstep, ih l2 x]
    cases hl : lastIdxOf l2 x with
    | some t =>
        simp only []
        have : rest.length + t + 1 = (a :: rest).length + t := by simp; omega
        simp [this]
    | none =>
        simp only []
        cases hr : lastIdxOf rest x with
        | some u => simp [lastIdxOf, hr]
        | none => simp [lastIdxOf, hr]

theorem lastIdxOf_lt (l : List String) (x : String) (L : Nat)
    (h : lastIdxOf l x = some L) : L < l.length :=
  (lastIdxOf_get l x L h).fst

theorem lastIdxOf_none_of_not_mem (l : List String) (x : String) (h : x ∉ l) :
    lastIdxOf l x = none := by
  cases hl : lastIdxOf l x with
  | none => rfl
  | some t => exact absurd ((lastIdxOf_isSome_iff_mem l x).mp (by simp [hl])) h

/-- C9 (amended): a Workflow containing two nodes with the same name, all of
whose Connection values reference declared names, converts without error to
a graph with strictly fewer records than nodes; the id assigned to the
earlier duplicate is absent from the result, and (when the later duplicate
is the last occurrence of the name) the record stored under the later
duplicate's id is the later node's converted record.  (Without the
reference-resolvability condition the conversion can raise, see the
counterexample.) -/
theorem claim_C9 (c : DslToJsonConverter) (w : Workflow)
    (pre mid post : List Node) (n1 n2 : Node)
    (hsplit : allNodes w = pre ++ (n1 :: (mid ++ (n2 :: post))))
    (hname : n1.name = n2.name)
    (hres : ∀ n ∈ allNodes w, ∀ p ∈ n.properties, ∀ cn,
      p.value = PropValue.conn cn → cn.node ∈ nodeNamesOf w) :
    ∃ g, c.convert w = .ok g ∧
      g.length < (allNodes w).length ∧
      pyLookup g (Nat.repr (pre.length + 1)) = none ∧
      ((∀ n ∈ post, n.name ≠ n2.name) →
        ∃ r, convertNode (assignIds (allNodes w) 1 ([], [])).1
            (assignIds (allNodes w) 1 ([], [])).2 c.output_mappings n2 = .ok r ∧
          pyLookup g (Nat.repr (pre.length + 1 + mid.length + 1)) = some r) := by
  have hn1 : n1 ∈ allNodes w := by
    rw [hsplit]; exact List.mem_append.mpr (Or.inr (by simp))
  have hn2 : n2 ∈ allNodes w := by
    rw [hsplit]; exact List.mem_append.mpr (Or.inr (by simp))
  have hpostmem : ∀ n ∈ post, n ∈ allNodes w := by
    intro n hn
    rw [hsplit]; exact List.mem_append.mpr (Or.inr (by simp [hn]))
  have hlookup_some : ∀ n ∈ allNodes w,
      (pyLookup (assignIds (allNodes w) 1 ([], [])).1 n.name).isSome := by
    intro n hn
    exact idMap_lookup_isSome w n.name (List.mem_map_of_mem Node.name hn)
  have hconnlookup : ∀ n ∈ allNodes w, ∀ p ∈ n.properties, ∀ cn,
      p.value = PropValue.conn cn →
      (pyLookup (assignIds (allNodes w) 1 ([], [])).1 cn.node).isSome := by
    intro n hn p hp cn hcn
    exact idMap_lookup_isSome w cn.node (hres n hn p hp cn hcn)
  obtain ⟨g, hg⟩ := emitNodes_ok (assignIds (allNodes w) 1 ([], [])).1
    (assignIds (allNodes w) 1 ([], [])).2 c.output_mappings (allNodes w) []
    hlookup_some hconnlookup
  have hconv : c.convert w = .ok g := hg
  -- per-node key characterization
  have hkey : ∀ n ∈ allNodes w, ∃ L, lastIdxOf (nodeNamesOf w) n.name = some L ∧
      pyLookup (assignIds (allNodes w) 1 ([], [])).1 n.name = some (Nat.repr (1 + L)) := by
    intro n hn
    obtain ⟨L, hL⟩ := Option.isSome_iff_exists.mp
      ((lastIdxOf_isSome_iff_mem _ _).mpr (List.mem_map_of_mem Node.name hn))
    have hL' : lastIdxOf (nodeNamesOf w) n.name = some L := hL
    refine ⟨L, hL', ?_⟩
    rw [idMap_lookup w n.name, hL']
  -- name-list decompositions
  have hnames_split : nodeNamesOf w =
      pre.map Node.name ++ (n1.name :: (mid.map Node.name ++ (n2.name :: post.map Node.name))) := by
    rw [nodeNamesOf, hsplit]
    simp
  have hnames_split2 : nodeNamesOf w =
      (pre.map Node.name ++ (n1.name :: mid.map Node.name)) ++
        (n2.name :: post.map Node.name) := by
    rw [hnames_split]
    simp
  -- no name has its last occurrence at the earlier duplicate's position
  have K2 : ∀ (x : String) (L : Nat), lastIdxOf (nodeNamesOf w) x = some L →
      L ≠ pre.length := by
    intro x L hL hLpre
    rw [hnames_split, lastIdxOf_append] at hL
    cases hB : lastIdxOf (n1.name :: (mid.map Node.name ++ (n2.name :: post.map Node.name))) x with
    | some t =>
        rw [hB] at hL
        simp only [List.length_map] at hL
        have ht : t = 0 := by
          have := Option.some.inj hL
          omega
        subst ht
        cases hB' : lastIdxOf (mid.map Node.name ++ (n2.name :: post.map Node.name)) x with
        | some i => simp only [lastIdxOf, hB'] at hB; exact absurd (Option.some.inj hB) (by omega)
        | none =>
            simp only [lastIdxOf, hB'] at hB
            by_cases hx : n1.name = x
            · have hxmem : x ∈ mid.map Node.name ++ (n2.name :: post.map Node.name) := by
                have : x = n2.name := hx ▸ hname
                simp [this]
              have := (lastIdxOf_isSome_iff_mem _ x).mpr hxmem
              simp [hB'] at this
            · simp [hx] at hB
    | none =>
        rw [hB] at hL
        have := lastIdxOf_lt _ x L hL
        simp at this
        omega
  -- with a clean tail, the later duplicate's position is the last occurrence
  have K1 : (∀ n ∈ post, n.name ≠ n2.name) →
      lastIdxOf (nodeNamesOf w) n2.name = some (pre.length + 1 + mid.length) := by
    intro hpost
    rw [hnames_split2, lastIdxOf_append]
    have hnot : n2.name ∉ post.map Node.name := by
      intro hmem
      obtain ⟨n, hn, hn'⟩ := List.mem_map.mp hmem
      exact hpost n hn hn'
    have h1 : lastIdxOf (n2.name :: post.map Node.name) n2.name = some 0 := by
      simp [lastIdxOf, lastIdxOf_none_of_not_mem _ _ hnot]
    rw [h1]
    simp only [List.length_append, List.length_map, List.length_cons]
    congr 1
    omega
  -- names in the tail have strictly later last occurrences
  have K3 : ∀ n ∈ post, ∀ t, lastIdxOf (nodeNamesOf w) n.name = some t →
      pre.length + 1 + mid.length < t := by
    intro n hn t ht
    rw [hnames_split2, lastIdxOf_append] at ht
    have hmem : n.name ∈ post.map Node.name := List.mem_map_of_mem Node.name hn
    obtain ⟨u, hu⟩ := Option.isSome_iff_exists.mp
      ((lastIdxOf_isSome_iff_mem _ _).mpr hmem)
    have h1 : lastIdxOf (n2.name :: post.map Node.name) n.name = some (u + 1) := by
      simp [lastIdxOf, hu]
    rw [h1] at ht
    have := Option.some.inj ht
    simp only [List.length_append, List.length_map, List.length_cons] at this
    omega
  -- the one fact needing the whole-list emission: provenance of keys
  have hg0 := hg
  obtain ⟨_, hprov, _, _⟩ := emitNodes_facts _ _ _ (allNodes w) [] g hg0
  -- decomposed emission
  have hgs : emitNodes (assignIds (allNodes w) 1 ([], [])).1
      (assignIds (allNodes w) 1 ([], [])).2 c.output_mappings
      (pre ++ (n1 :: (mid ++ (n2 :: post)))) [] = .ok g := by
    rw [← hsplit]; exact hg
  rw [emitNodes_append] at hgs
  cases hpre : emitNodes (assignIds (allNodes w) 1 ([], [])).1
      (assignIds (allNodes w) 1 ([], [])).2 c.output_mappings pre [] with
  | error e => rw [hpre] at hgs; exact absurd hgs (by simp)
  | ok g1 =>
  rw [hpre] at hgs
  obtain ⟨key1, hkey1⟩ := Option.isSome_iff_exists.mp (hlookup_some n1 hn1)
  cases hrec1 : convertNode (assignIds (allNodes w) 1 ([], [])).1
      (assignIds (allNodes w) 1 ([], [])).2 c.output_mappings n1 with
  | error e =>
      simp only [emitNodes, getItem, hkey1, hrec1] at hgs
      exact absurd hgs (by simp)
  | ok r1 =>
  simp only [emitNodes, getItem, hkey1, hrec1] at hgs
  rw [emitNodes_append] at hgs
  cases hmid : emitNodes (assignIds (allNodes w) 1 ([], [])).1
      (assignIds (allNodes w) 1 ([], [])).2 c.output_mappings mid
      (pyInsert g1 key1 r1) with
  | error e => rw [hmid] at hgs; exact absurd hgs (by simp)
  | ok g3 =>
  rw [hmid] at hgs
  have hkey2 : pyLookup (assignIds (allNodes w) 1 ([], [])).1 n2.name = some key1 := by
    rw [← hname]; exact hkey1
  cases hrec2 : convertNode (assignIds (allNodes w) 1 ([], [])).1
      (assignIds (allNodes w) 1 ([], [])).2 c.output_mappings n2 with
  | error e =>
      simp only [emitNodes, getItem, hkey2, hrec2] at hgs
      exact absurd hgs (by simp)
  | ok r2 =>
  simp only [emitNodes, getItem, hkey2, hrec2] at hgs
  -- length accounting
  obtain ⟨hlen1, _, _, _⟩ := emitNodes_facts _ _ _ pre [] g1 hpre
  obtain ⟨hlen3, _, hmono3, _⟩ := emitNodes_facts _ _ _ mid (pyInsert g1 key1 r1) g3 hmid
  obtain ⟨hlen5, _, _, hpres5⟩ := emitNodes_facts _ _ _ post (pyInsert g3 key1 r2) g hgs
  have hk2mem : key1 ∈ (pyInsert g1 key1 r1).map Prod.fst := mem_keys_pyInsert_self g1 key1 r1
  have hk3mem : key1 ∈ g3.map Prod.fst := hmono3 key1 hk2mem
  have hlen4 : (pyInsert g3 key1 r2).length = g3.length :=
    length_pyInsert_of_mem g3 key1 r2 hk3mem
  have hNlen : (allNodes w).length = pre.length + 1 + mid.length + 1 + post.length := by
    rw [hsplit]; simp; omega
  have hlen2 := length_pyInsert_le g1 key1 r1
  have hlen1' : g1.length ≤ pre.length := by simpa using hlen1
  refine ⟨g, hconv, by omega, ?_, ?_⟩
  · -- earlier duplicate's id is absent
    apply pyLookup_eq_none_of_not_mem_keys
    intro hmem
    rcases hprov (Nat.repr (pre.length + 1)) hmem with hfalse | ⟨n, hn, hn'⟩
    · simp at hfalse
    · obtain ⟨L, hL, hL'⟩ := hkey n hn
      rw [hL'] at hn'
      have : 1 + L = pre.length + 1 := natRepr_inj (Option.some.inj hn')
      exact K2 n.name L hL (by omega)
  · -- later duplicate's record under its id
    intro hpost
    refine ⟨r2, rfl, ?_⟩
    have hkv : key1 = Nat.repr (1 + (pre.length + 1 + mid.length)) := by
      have h1 := K1 hpost
      have h2 := hkey2
      rw [idMap_lookup w n2.name, h1] at h2
      exact (Option.some.inj h2).symm
    have hrepr : Nat.repr (pre.length + 1 + mid.length + 1) = key1 := by
      rw [hkv]
      congr 1
      omega
    have hclean : ∀ n ∈ post,
        pyLookup (assignIds (allNodes w) 1 ([], [])).1 n.name ≠ some key1 := by
      intro n hn hcontra
      obtain ⟨L, hL, hL'⟩ := hkey n (hpostmem n hn)
      rw [hL'] at hcontra
      have := K3 n hn L hL
      have heq : 1 + L = 1 + (pre.length + 1 + mid.length) := by
        rw [hkv] at hcontra
        exact natRepr_inj (Option.some.inj hcontra)
      omega
    rw [hrepr, hpres5 key1 hclean]
    exact pyLookup_pyInsert_self g3 key1 r2

/-- C9 counterexample data: two nodes named `A`, plus a connection to the
undeclared name `Z`. -/
def c9we : Workflow :=
  ⟨[⟨"S", [⟨"A", "T", [⟨"p", .conn ⟨"Z", "out"⟩⟩]⟩, ⟨"A", "T", []⟩]⟩]⟩

/-- C9 counterexample: the claim asserts `convert` raises no error on
*every* Workflow containing two same-named nodes; this one (whose property
also holds a dangling connection) raises `KeyError("Z")` and returns no
graph at all. -/
theorem claim_C9_counterexample :
    nodeNamesOf c9we = ["A", "A"] ∧
    c4conv.convert c9we = .error (.keyError "Z") := ⟨rfl, rfl⟩

/-- C9 witness data: nodes `A : T`, `B : U`, `A : V` with only literal
properties. -/
def c9wd : Workflow :=
  ⟨[⟨"S", [⟨"A", "T", [⟨"p", .int 1⟩]⟩, ⟨"B", "U", []⟩, ⟨"A", "V", []⟩]⟩]⟩

theorem claim_C9_witness :
    (allNodes c9wd = [] ++ ((⟨"A", "T", [⟨"p", PropValue.int 1⟩]⟩ : Node) ::
      ([⟨"B", "U", []⟩] ++ ((⟨"A", "V", []⟩ : Node) :: [])))) ∧
    (⟨"A", "T", [⟨"p", PropValue.int 1⟩]⟩ : Node).name = (⟨"A", "V", []⟩ : Node).name ∧
    (∀ n ∈ allNodes c9wd, ∀ p ∈ n.properties, ∀ cn,
      p.value = PropValue.conn cn → cn.node ∈ nodeNamesOf c9wd) ∧
    (∃ g, c4conv.convert c9wd = .ok g ∧
      g.length < (allNodes c9wd).length ∧
      pyLookup g (Nat.repr (([] : List Node).length + 1)) = none ∧
      ((∀ n ∈ ([] : List Node), n.name ≠ (⟨"A", "V", []⟩ : Node).name) →
        ∃ r, convertNode (assignIds (allNodes c9wd) 1 ([], [])).1
            (assignIds (allNodes c9wd) 1 ([], [])).2 c4conv.output_mappings
            (⟨"A", "V", []⟩ : Node) = .ok r ∧
          pyLookup g (Nat.repr (([] : List Node).length + 1 +
            ([(⟨"B", "U", []⟩ : Node)] : List Node).length + 1)) = some r)) :=
  have hres : ∀ n ∈ allNodes c9wd, ∀ p ∈ n.properties, ∀ cn,
      p.value = PropValue.conn cn → cn.node ∈ nodeNamesOf c9wd := by
    intro n hn p hp cn hcn
    have hn' : n ∈ ([⟨"A", "T", [⟨"p", PropValue.int 1⟩]⟩, ⟨"B", "U", []⟩,
        ⟨"A", "V", []⟩] : List Node) := hn
    cases hn' with
    | head =>
        cases hp with
        | head => exact PropValue.noConfusion hcn
        | tail _ h => exact absurd h (List.not_mem_nil p)
    | tail _ h1 =>
        cases h1 with
        | head => exact absurd hp (List.not_mem_nil p)
        | tail _ h2 =>
            cases h2 with
            | head => exact absurd hp (List.not_mem_nil p)
            | tail _ h3 => exact absurd h3 (List.not_mem_nil n)
  ⟨rfl, rfl, hres,
    claim_C9 c4conv c9wd [] [⟨"B", "U", []⟩] [] ⟨"A", "T", [⟨"p", PropValue.int 1⟩]⟩
      ⟨"A", "V", []⟩ rfl rfl hres⟩

/-! ### Format detection (C5) and normalization (C3) -/

/-- C5: the effective `is_full_workflow_format` returns true exactly when
the blob has a top-level `workflow` key mapping to a dict, or a top-level
`nodes` or `links` key; in particular it is false on a simplified graph
blob and true on a blob with a `workflow` dict plus extra keys. -/
theorem claim_C5 :
    (∀ fields : List (String × Json),
      is_full_workflow_format (.obj fields) = true ↔
        ((∃ g, pyLookup fields "workflow" = some (.obj g)) ∨
         (pyLookup fields "nodes").isSome ∨ (pyLookup fields "links").isSome)) ∧
    is_full_workflow_format
      (.obj [("1", .obj [("class_type", .str "X"), ("inputs", .obj [])])]) = false ∧
    is_full_workflow_format
      (.obj [("workflow", .obj [("1", .obj [])]), ("extra", .obj [])]) = true := by
  refine ⟨?_, rfl, rfl⟩
  intro fields
  have hmatch : (match pyLookup fields "workflow" with
      | some (Json.obj _) => true
      | _ => false) = true ↔ ∃ g, pyLookup fields "workflow" = some (.obj g) := by
    cases hw : pyLookup fields "workflow" with
    | none => simp
    | some v => cases v <;> simp
  simp only [is_full_workflow_format, Bool.or_eq_true, hmatch]
  exact or_assoc

/-- The nodes/links blob of the C3 scenario: one well-formed node record
and one well-formed 6-element link record. -/
def c3blob : Json :=
  .obj [("nodes", .arr [.obj [("id", .int 1), ("type", .str "KSampler"),
            ("inputs", .arr []), ("widgets_values", .arr [.int 20])]]),
        ("links", .arr [.arr [.int 1, .int 2, .int 0, .int 1, .int 0, .str "LATENT"]])]

/-- C3: on a full-format blob with top-level `nodes` and `links`, the
effective `full_workflow_to_simplified` does not produce simplified
records: it reaches the call to the globally undefined
`convert_nodes_format_to_simplified` and raises `NameError`. -/
theorem claim_C3 :
    full_workflow_to_simplified c3blob =
      .error (.nameError "convert_nodes_format_to_simplified") := rfl

/-! ### Connection emission (C6) -/

/-- The two-node workflow of the C6 scenario: `A : TypeX`, then `B : TypeY`
with property `in: @A.out`. -/
def c6w : Workflow :=
  ⟨[⟨"S", [⟨"A", "TypeX", []⟩, ⟨"B", "TypeY", [⟨"in", .conn ⟨"A", "out"⟩⟩]⟩]⟩]⟩

/-- A converter whose slot table maps TypeX's output `out` to slot 2. -/
def c6conv : DslToJsonConverter := ⟨[("TypeX", [("out", 2)])], [], [], 1⟩

/-- C6: with `out → 2` in the table for `TypeX`, node `B`'s `in` input is
emitted as the pair `["1", 2]` (node `A` having received id `"1"`). -/
theorem claim_C6 :
    c6conv.convert c6w =
      .ok [("1", ⟨"TypeX", []⟩), ("2", ⟨"TypeY", [("in", .arr [.str "1", .int 2])]⟩)] := rfl

/-! ### Mapping-table defaults (C7) -/

/-- C7: a connection whose target type is absent from the slot table, or
whose output name is absent from the type's sub-mapping, is emitted with
slot index 0; symmetrically, a slot with no reverse-mapping entry for the
target's class type is named `output_<slot>`. -/
theorem claim_C7 :
    (∀ (idMap typeMap : List (String × String))
       (mappings : List (String × List (String × Int)))
       (cn : Connection) (nid t : String),
      pyLookup idMap cn.node = some nid →
      pyLookup typeMap cn.node = some t →
      (pyLookup mappings t = none ∨
        ∃ sub, pyLookup mappings t = some sub ∧ pyLookup sub cn.output = none) →
      convertValue idMap typeMap mappings (.conn cn) = .ok (.arr [.str nid, .int 0])) ∧
    (∀ (mappings : List (String × List (String × Int))) (t : String) (idx : Int),
      (pyLookup (reverseMappings mappings) t = none ∨
        ∃ rm, pyLookup (reverseMappings mappings) t = some rm ∧ pyLookup rm idx = none) →
      getOutputName (reverseMappings mappings) t (.int idx) = "output_" ++ toString idx) := by
  constructor
  · intro idMap typeMap mappings cn nid t hid ht hmiss
    have hidx : getOutputIndex typeMap mappings cn.node cn.output = 0 := by
      rcases hmiss with hmiss | ⟨sub, hsub, hout⟩
      · simp only [getOutputIndex, ht, hmiss]
      · simp only [getOutputIndex, ht, hsub, hout, Option.getD_none]
    simp only [convertValue, getItem, hid, hidx]
  · intro mappings t idx hmiss
    have hps : pyStr (JVal.int idx) = toString idx := by simp [pyStr, pyRepr]
    rcases hmiss with hmiss | ⟨rm, hrm, hidx⟩
    · simp only [getOutputName, hmiss, hps]
    · simp only [getOutputName, hrm, hidx, Option.getD_none, hps]

theorem claim_C7_witness :
    (pyLookup [("A", "1")] ("A" : String) = some "1") ∧
    (pyLookup [("A", "TypeZ")] ("A" : String) = some "TypeZ") ∧
    (pyLookup ([] : List (String × List (String × Int))) "TypeZ" = none) ∧
    convertValue [("A", "1")] [("A", "TypeZ")] []
      (.conn ⟨"A", "out"⟩) = .ok (.arr [.str "1", .int 0]) ∧
    (pyLookup (reverseMappings DEFAULT_OUTPUT_MAPPINGS) "SaveImage" = some []) ∧
    (pyLookup ([] : List (Int × String)) (5 : Int) = none) ∧
    getOutputName (reverseMappings DEFAULT_OUTPUT_MAPPINGS) "SaveImage" (.int 5) =
      "output_" ++ toString (5 : Int) :=
  ⟨rfl, rfl, rfl,
    claim_C7.1 [("A", "1")] [("A", "TypeZ")] [] ⟨"A", "out"⟩ "1" "TypeZ" rfl rfl (Or.inl rfl),
    rfl, rfl,
    claim_C7.2 DEFAULT_OUTPUT_MAPPINGS "SaveImage" 5 (Or.inr ⟨[], rfl, rfl⟩)⟩

/-! ### Graph→DSL scenario (C8) -/

/-- The graph of the C8 scenario. -/
def c8g : Graph :=
  [("1", ⟨"CheckpointLoaderSimple", [("ckpt_name", .str "model.safetensors")]⟩),
   ("2", ⟨"SaveImage", [("images", .arr [.str "1", .int 0])]⟩)]

/-- C8: converting the two-node graph back with the default table yields a
node `checkpoint : CheckpointLoaderSimple` in a "Model Loading" section and
`save : SaveImage` in an "Output" section, with `images` resolved to the
connection `@checkpoint.model`. -/
theorem claim_C8 :
    (⟨DEFAULT_OUTPUT_MAPPINGS⟩ : JsonToDslConverter).convert c8g =
      .ok ⟨[⟨"Model Loading", [⟨"checkpoint", "CheckpointLoaderSimple",
              [⟨"ckpt_name", .str "model.safetensors"⟩]⟩]⟩,
            ⟨"Output", [⟨"save", "SaveImage",
              [⟨"images", .conn ⟨"checkpoint", "model"⟩⟩]⟩]⟩]⟩ := rfl

/-! ### Integer node-id references (C10) -/

theorem generateNodeNamesAux_none :
    ∀ (entries : List (String × GraphNode)) (names : List (String × String))
      (counts : List (String × Nat)) (key : String),
      key ∉ entries.map Prod.fst → pyLookup names key = none →
      pyLookup (generateNodeNamesAux entries names counts) key = none := by
  intro entries
  induction entries with
  | nil => intro names counts key _ h; simpa [generateNodeNamesAux] using h
  | cons e rest ih =>
    intro names counts key hk h
    obtain ⟨nid, nd⟩ := e
    simp only [List.map_cons, List.mem_cons] at hk
    push_neg at hk
    have hne : key ≠ nid := hk.1
    have hins : ∀ (nm : String), pyLookup (pyInsert names nid nm) key = none := by
      intro nm
      rw [pyLookup_pyInsert_ne names nid key nm hne]
      exact h
    simp only [generateNodeNamesAux]
    cases hc : pyLookup counts (typeToName nd.class_type) with
    | none => exact ih _ _ key hk.2 (hins _)
    | some c => exact ih _ _ key hk.2 (hins _)

theorem generateNodeNames_none (g : Graph) (key : String)
    (h : pyLookup g key = none) : pyLookup (generateNodeNames g) key = none := by
  apply generateNodeNamesAux_none g [] [] key ?_ rfl
  intro hmem
  have := pyLookup_isSome_of_mem_keys g key hmem
  simp [h] at this

theorem convertProps_ok_forall (revMappings : List (String × List (Int × String)))
    (node_names : List (String × String)) (json_data : Graph) :
    ∀ (inputs : List (String × JVal)) (ps : List Property),
      convertProps revMappings node_names json_data inputs = .ok ps →
      ∀ e ∈ inputs, ∃ pv, jsonConvertValue revMappings node_names json_data e.2 = .ok pv := by
  intro inputs
  induction inputs with
  | nil => intro ps _ e he; simp at he
  | cons q rest ih =>
    intro ps h e he
    obtain ⟨pn, pv⟩ := q
    cases hv : jsonConvertValue revMappings node_names json_data pv with
    | error er =>
        simp only [convertProps, hv] at h
        exact Except.noConfusion h
    | ok cv =>
        rcases List.mem_cons.mp he with he | he
        · exact ⟨cv, by rw [he]; exact hv⟩
        · cases hr : convertProps revMappings node_names json_data rest with
          | error er =>
              simp only [convertProps, hv, hr] at h
              exact Except.noConfusion h
          | ok more => exact ih more hr e he

theorem groupEntries_ok_props (revMappings : List (String × List (Int × String)))
    (node_names : List (String × String)) (json_data : Graph) :
    ∀ (entries : List (String × GraphNode)) (acc : List (String × List Node))
      (d : List (String × List Node)),
      groupEntries revMappings node_names json_data entries acc = .ok d →
      ∀ e ∈ entries, ∃ ps, convertProps revMappings node_names json_data e.2.inputs = .ok ps := by
  intro entries
  induction entries with
  | nil => intro acc d _ e he; simp at he
  | cons q rest ih =>
    intro acc d h e he
    obtain ⟨nid, nd⟩ := q
    cases hm : getItem node_names nid with
    | error er =>
        simp only [groupEntries, hm] at h
        exact Except.noConfusion h
    | ok nm =>
        cases hp : convertProps revMappings node_names json_data nd.inputs with
        | error er =>
            simp only [groupEntries, hm, hp] at h
            exact Except.noConfusion h
        | ok ps =>
            rcases List.mem_cons.mp he with he | he
            · exact ⟨ps, by rw [he]; exact hp⟩
            · simp only [groupEntries, hm, hp] at h
              exact ih _ d h e he

/-- C10: `JsonToDslConverter._convert_value` keys the connection target by
`str(value[0])`, so `[i, s]` with integer `i` converts exactly like
`[str(i), s]`; and when `str(i)` is not an id of the graph, the whole
conversion fails. -/
theorem claim_C10 :
    (∀ (revMappings : List (String × List (Int × String)))
       (node_names : List (String × String)) (json_data : Graph) (i : Int) (s : JVal),
      jsonConvertValue revMappings node_names json_data (.arr [.int i, s]) =
        jsonConvertValue revMappings node_names json_data (.arr [.str (toString i), s])) ∧
    (∀ (c : JsonToDslConverter) (json_data : Graph) (i : Int) (s : JVal)
       (nid pn : String) (nd : GraphNode),
      pyLookup json_data (toString i) = none →
      (nid, nd) ∈ json_data →
      (pn, JVal.arr [.int i, s]) ∈ nd.inputs →
      ∀ w, c.convert json_data ≠ .ok w) := by
  constructor
  · intro revMappings node_names json_data i s
    have hps : pyStr (JVal.int i) = toString i := by simp [pyStr, pyRepr]
    have hps2 : pyStr (JVal.str (toString i)) = toString i := rfl
    simp only [jsonConvertValue, hps, hps2]
  · intro c json_data i s nid pn nd hnone hmem hinput w hok
    cases hgr : groupEntries (reverseMappings c.output_mappings)
        (generateNodeNames json_data) json_data json_data [] with
    | error e =>
        simp only [JsonToDslConverter.convert, hgr] at hok
        exact Except.noConfusion hok
    | ok d =>
        obtain ⟨ps, hps⟩ := groupEntries_ok_props _ _ _ json_data [] d hgr (nid, nd) hmem
        obtain ⟨pv, hpv⟩ := convertProps_ok_forall _ _ _ nd.inputs ps hps
          (pn, JVal.arr [.int i, s]) hinput
        have hnames : pyLookup (generateNodeNames json_data) (toString i) = none :=
          generateNodeNames_none json_data (toString i) hnone
        have : jsonConvertValue (reverseMappings c.output_mappings)
            (generateNodeNames json_data) json_data (JVal.arr [.int i, s]) =
            .error (.keyError (toString i)) := by
          have hps : pyStr (JVal.int i) = toString i := by simp [pyStr, pyRepr]
          simp only [jsonConvertValue, getItem, hps, hnames]
        rw [this] at hpv
        exact Except.noConfusion hpv

/-- Concrete data for the C10 witness. -/
def c10g : Graph := [("2", ⟨"T", [("x", .arr [.int 1, .int 0])]⟩)]

theorem claim_C10_witness :
    (pyLookup c10g (toString (1 : Int)) = none) ∧
    ((("2" : String), (⟨"T", [("x", .arr [.int 1, .int 0])]⟩ : GraphNode)) ∈ c10g) ∧
    ((("x" : String), JVal.arr [.int 1, .int 0]) ∈
      (⟨"T", [("x", .arr [.int 1, .int 0])]⟩ : GraphNode).inputs) ∧
    (jsonConvertValue [] [] c10g (.arr [.int 1, .int 0]) =
      jsonConvertValue [] [] c10g (.arr [.str (toString (1 : Int)), .int 0])) ∧
    ∀ w, (⟨DEFAULT_OUTPUT_MAPPINGS⟩ : JsonToDslConverter).convert c10g ≠ .ok w :=
  ⟨rfl, List.Mem.head _, List.Mem.head _,
    claim_C10.1 [] [] c10g 1 (.int 0),
    claim_C10.2 ⟨DEFAULT_OUTPUT_MAPPINGS⟩ c10g 1 (.int 0) "2" "x"
      ⟨"T", [("x", .arr [.int 1, .int 0])]⟩ rfl (List.Mem.head _) (List.Mem.head _)⟩

end ComfyMcp
